import Mathlib

/-!
Verification of the Redfish JSON-Schema-to-OpenAPI converter
(src/json-to-openapi-converter/json-to-yaml.py) against its specification.

The converter's in-memory documents are parsed JSON: we embed them as the
inductive JValue below, with Python dicts as insertion-ordered association
lists (json.load produces dicts with unique keys; dict assignment replaces
the value in place, dict.pop removes the entry, iteration follows insertion
order).  Fallible Python code (uncaught exceptions such as KeyError,
IndexError, TypeError, AttributeError, or a json.load failure) is embedded
as Option: none means the exception propagates out of the function.
-/

/-- A parsed JSON value.  Numbers are embedded as integers: the converter
never computes with numeric values, it only moves them around, so the
numeric subtype is irrelevant to every claim. -/
inductive JValue where
  | null : JValue
  | bool : Bool → JValue
  | num : Int → JValue
  | str : String → JValue
  | arr : List JValue → JValue
  | obj : List (String × JValue) → JValue
  deriving Repr

abbrev KVs := List (String × JValue)

mutual

def JValue.beq : JValue → JValue → Bool
  | .null, .null => true
  | .bool a, .bool b => a == b
  | .num a, .num b => a == b
  | .str a, .str b => a == b
  | .arr a, .arr b => JValue.beqList a b
  | .obj a, .obj b => JValue.beqKVs a b
  | _, _ => false

def JValue.beqList : List JValue → List JValue → Bool
  | [], [] => true
  | a :: as, b :: bs => JValue.beq a b && JValue.beqList as bs
  | _, _ => false

def JValue.beqKVs : KVs → KVs → Bool
  | [], [] => true
  | (ka, va) :: as, (kb, vb) :: bs =>
      ka == kb && JValue.beq va vb && JValue.beqKVs as bs
  | _, _ => false

end

mutual

theorem JValue.eq_of_beq : ∀ {a b : JValue}, JValue.beq a b = true → a = b
  | .null, .null, _ => rfl
  | .bool a, .bool b, h => by simpa [JValue.beq] using h
  | .num a, .num b, h => by simpa [JValue.beq] using h
  | .str a, .str b, h => by simpa [JValue.beq] using h
  | .arr a, .arr b, h => by
      simp only [JValue.beq] at h
      exact congrArg JValue.arr (JValue.eqList_of_beqList h)
  | .obj a, .obj b, h => by
      simp only [JValue.beq] at h
      exact congrArg JValue.obj (JValue.eqKVs_of_beqKVs h)

theorem JValue.eqList_of_beqList :
    ∀ {a b : List JValue}, JValue.beqList a b = true → a = b
  | [], [], _ => rfl
  | a :: as, b :: bs, h => by
      simp only [JValue.beqList, Bool.and_eq_true] at h
      rw [JValue.eq_of_beq h.1, JValue.eqList_of_beqList h.2]

theorem JValue.eqKVs_of_beqKVs : ∀ {a b : KVs}, JValue.beqKVs a b = true → a = b
  | [], [], _ => rfl
  | (ka, va) :: as, (kb, vb) :: bs, h => by
      simp only [JValue.beqKVs, Bool.and_eq_true, beq_iff_eq] at h
      rw [h.1.1, JValue.eq_of_beq h.1.2, JValue.eqKVs_of_beqKVs h.2]

end

mutual

theorem JValue.beq_refl : ∀ a : JValue, JValue.beq a a = true
  | .null => rfl
  | .bool a => by simp [JValue.beq]
  | .num a => by simp [JValue.beq]
  | .str a => by simp [JValue.beq]
  | .arr a => by simpa [JValue.beq] using JValue.beqList_refl a
  | .obj a => by simpa [JValue.beq] using JValue.beqKVs_refl a

theorem JValue.beqList_refl : ∀ a : List JValue, JValue.beqList a a = true
  | [] => rfl
  | a :: as => by
      simp only [JValue.beqList, Bool.and_eq_true]
      exact ⟨JValue.beq_refl a, JValue.beqList_refl as⟩

theorem JValue.beqKVs_refl : ∀ a : KVs, JValue.beqKVs a a = true
  | [] => rfl
  | (k, v) :: as => by
      simp [JValue.beqKVs, JValue.beq_refl v, JValue.beqKVs_refl as]

end

instance : DecidableEq JValue := fun a b =>
  decidable_of_iff (JValue.beq a b = true)
    ⟨JValue.eq_of_beq, fun h => h ▸ JValue.beq_refl a⟩

/-- Python d[k] lookup and d.get(k): first binding of the key (dicts built by
json.load and by the converter's own assignments never hold duplicates). -/
def lookupKey : KVs → String → Option JValue
  | [], _ => none
  | (k, v) :: rest, key => if k = key then some v else lookupKey rest key

/-- Python "k in d". -/
def containsKey : KVs → String → Bool
  | [], _ => false
  | (k, _) :: rest, key => k == key || containsKey rest key

/-- Python d.pop(k) / d.pop(k, None): removes the binding, positions of the
remaining entries unchanged. -/
def eraseKey : KVs → String → KVs
  | [], _ => []
  | (k, v) :: rest, key => if k = key then rest else (k, v) :: eraseKey rest key

/-- Python d[k] = v: replaces the value in place if the key is present,
otherwise appends the binding at the end. -/
def setKey : KVs → String → JValue → KVs
  | [], key, v => [(key, v)]
  | (k, w) :: rest, key, v =>
      if k = key then (key, v) :: rest else (k, w) :: setKey rest key v

theorem lookupKey_setKey_self (kvs : KVs) (k : String) (v : JValue) :
    lookupKey (setKey kvs k v) k = some v := by
  induction kvs with
  | nil => simp [setKey, lookupKey]
  | cons p rest ih =>
      obtain ⟨k', w⟩ := p
      by_cases h : k' = k <;> simp [setKey, lookupKey, h, ih]

theorem lookupKey_setKey_ne (kvs : KVs) (k k' : String) (v : JValue)
    (h : k ≠ k') : lookupKey (setKey kvs k v) k' = lookupKey kvs k' := by
  induction kvs with
  | nil => simp [setKey, lookupKey, h]
  | cons p rest ih =>
      obtain ⟨k0, w⟩ := p
      by_cases h0 : k0 = k
      · subst h0; simp [setKey, lookupKey, h]
      · simp [setKey, lookupKey, h0, ih]

theorem containsKey_setKey (kvs : KVs) (k k' : String) (v : JValue) :
    containsKey (setKey kvs k v) k' = (containsKey kvs k' || (k == k')) := by
  induction kvs with
  | nil => simp [setKey, containsKey]
  | cons p rest ih =>
      obtain ⟨k0, w⟩ := p
      by_cases h0 : k0 = k
      · subst h0
        simp only [setKey, if_pos rfl, containsKey]
        by_cases h1 : k0 = k' <;> simp [h1]
      · simp only [setKey, if_neg h0, containsKey, ih]
        by_cases h1 : k0 = k' <;> simp [h1, Bool.or_assoc]

theorem eraseKey_of_not_containsKey (kvs : KVs) (k : String)
    (h : containsKey kvs k = false) : eraseKey kvs k = kvs := by
  induction kvs with
  | nil => rfl
  | cons p rest ih =>
      obtain ⟨k0, w⟩ := p
      simp [containsKey] at h
      simp [eraseKey, h.1, ih (by simpa [containsKey] using h.2)]

/-! ## String primitives mirroring the Python operations used by the source -/

/-- All start indices (from offset i) at which pat occurs in s.
Models the occurrence structure that the regular expressions and
str.replace of the source depend on. -/
def occIdx (pat : List Char) : List Char → Nat → List Nat
  | [], i => if pat = [] then [i] else []
  | c :: rest, i =>
      (if pat.isPrefixOf (c :: rest) then [i] else []) ++ occIdx pat rest (i + 1)

/-- Python "pat in s" substring test. -/
def strContains (s pat : String) : Bool :=
  !(occIdx pat.data s.data 0).isEmpty

/-- Python s.replace(old, new, 1): replace the leftmost occurrence only
(the source always calls replace with count 1 and a non-empty pattern). -/
def replaceOnceL (pat rep : List Char) : List Char → List Char
  | [] => []
  | c :: rest =>
      if pat.isPrefixOf (c :: rest) then rep ++ (c :: rest).drop pat.length
      else c :: replaceOnceL pat rep rest

def replaceOnce (s pat rep : String) : String :=
  ⟨replaceOnceL pat.data rep.data s.data⟩

/-- Python s.rsplit("/")[-1]: the suffix after the last slash
(the whole string when no slash occurs). -/
def lastSlashComp (s : String) : String :=
  ⟨s.data.foldl (fun acc c => if c = '/' then [] else acc ++ [c]) []⟩

/-- Python s.rsplit(".")[-1]: the suffix after the last dot. -/
def lastDotComp (s : String) : String :=
  ⟨s.data.foldl (fun acc c => if c = '.' then [] else acc ++ [c]) []⟩

/-- Python s.split("#")[0]: the part before the first hash
(the whole string when no hash occurs). -/
def takeBeforeHashL : List Char → List Char
  | [] => []
  | c :: rest => if c = '#' then [] else c :: takeBeforeHashL rest

def takeBeforeHash (s : String) : String :=
  ⟨takeBeforeHashL s.data⟩

theorem replaceOnce_of_not_contains (s pat rep : String)
    (h : strContains s pat = false) :
    replaceOnce s pat rep = s := by
  simp only [strContains, Bool.not_eq_true'] at h
  have main : ∀ (l : List Char) (i : Nat), occIdx pat.data l i = [] →
      replaceOnceL pat.data rep.data l = l := by
    intro l
    induction l with
    | nil => intro _ _; rfl
    | cons c rest ih =>
        intro i hocc
        simp only [occIdx] at hocc
        by_cases hpre : pat.data.isPrefixOf (c :: rest)
        · simp [hpre] at hocc
        · simp only [hpre, if_false, List.nil_append] at hocc
          simp [replaceOnceL, hpre, ih (i + 1) hocc]
  obtain ⟨l⟩ := s
  exact congrArg String.mk (main l 0 (by simpa using h))

/-! ## Models of the regular expressions used by the source -/

def jsonDefsPat : List Char := "json#/definitions/".data

/-- Model of the re.match at line 438 on pattern caret dot-plus slash
group(dot-plus) dot "json#/definitions/" group(dot-plus) dollar: the string
decomposes as A, a slash, B, one arbitrary character, the literal
"json#/definitions/", and C, with A, B, C all non-empty; the backtracking
engine maximizes first the end of A, then the end of B.  Returns the two
groups (B, C). -/
def pyRefMatch (s : String) : Option (String × String) :=
  let l := s.data
  let n := l.length
  let patLen := jsonDefsPat.length
  let occs := occIdx jsonDefsPat l 0
  let ok : Nat → Nat → Bool := fun i j =>
    decide (i + 3 ≤ j) && decide (j + patLen + 1 ≤ n)
  let slashes := (List.range n).filter
    (fun i => decide (1 ≤ i) && (l.getD i ' ' == '/'))
  match (slashes.filter (fun i => occs.any (fun j => ok i j))).max? with
  | none => none
  | some i =>
      match (occs.filter (fun j => ok i j)).max? with
      | none => none
      | some j =>
          some (⟨(l.drop (i + 1)).take (j - i - 2)⟩, ⟨l.drop (j + patLen)⟩)

def isWordChar (c : Char) : Bool := c.isAlphanum || c == '_'

def isFileClassChar (c : Char) : Bool :=
  isWordChar c || c == '.' || c == '-'

/-- Model of the re.search at line 442 for a slash followed by a group of
filename characters ending in ".json": at the leftmost qualifying slash,
the greedy character class takes the longest run that still leaves the
literal ".json" to match (the class includes the dot, so the run backtracks
from its maximal extent).  Returns the group: the file name with its .json
extension. -/
def fileSearchAt (l : List Char) (p : Nat) : Option String :=
  let rest := l.drop (p + 1)
  let run := (rest.takeWhile isFileClassChar).length
  match ((List.range (run + 1)).filter
      (fun m => decide (1 ≤ m) && ((rest.drop m).take 5 == ".json".data))).max? with
  | none => none
  | some m => some ⟨rest.take (m + 5)⟩

def pyFileSearch (s : String) : Option String :=
  let l := s.data
  (List.range l.length).findSome?
    (fun p => if l.getD p ' ' == '/' then fileSearchAt l p else none)

/-- Model of the re.search at line 254 on pattern caret group(dot-plus)
slash word-chars ".json": group 1 is everything before the last slash that
is followed by a non-empty word-character run and the literal ".json". -/
def pyDirMatch (s : String) : Option String :=
  let l := s.data
  let cand : Nat → Bool := fun i =>
    let rest := l.drop (i + 1)
    let run := (rest.takeWhile isWordChar).length
    decide (1 ≤ run) && ((rest.drop run).take 5 == ".json".data)
  match ((List.range l.length).filter
      (fun i => decide (1 ≤ i) && (l.getD i ' ' == '/') && cand i)).max? with
  | none => none
  | some i => some ⟨l.take i⟩

/-- Model of the re.search at line 675 on pattern group(dot-plus) "Id"
optional-digit: group 1 is everything before the last occurrence of "Id"
that has at least one character in front of it. -/
def pyIdSearch (name : String) : Option String :=
  let l := name.data
  match ((List.range l.length).filter
      (fun j => decide (1 ≤ j) && ((l.drop j).take 2 == "Id".data))).max? with
  | none => none
  | some j => some ⟨l.take j⟩

def lbrace : Char := Char.ofNat 123
def rbrace : Char := Char.ofNat 125

/-- Model of re.findall at line 662 for brace-delimited alphanumeric path
tokens, scanning left to right without overlap; fuel is one unit per
consumed character. -/
def findParamsF : Nat → List Char → List String
  | 0, _ => []
  | _ + 1, [] => []
  | fuel + 1, c :: rest =>
      if c = lbrace then
        let run := rest.takeWhile Char.isAlphanum
        if decide (1 ≤ run.length) && ((rest.drop run.length).take 1 == [rbrace]) then
          (⟨c :: (run ++ [rbrace])⟩ : String) ::
            findParamsF fuel (rest.drop (run.length + 1))
        else findParamsF fuel rest
      else findParamsF fuel rest

def findParams (s : String) : List String :=
  findParamsF (s.data.length + 1) s.data

/-- Model of re.sub at line 669 deleting brace characters. -/
def stripBraces (s : String) : String :=
  ⟨s.data.filter (fun c => !(c == lbrace || c == rbrace))⟩

/-! ## Python value semantics helpers -/

/-- Python truthiness of a parsed JSON value. -/
def pyTruthy : JValue → Bool
  | .null => false
  | .bool b => b
  | .num n => n != 0
  | .str s => !s.isEmpty
  | .arr xs => !xs.isEmpty
  | .obj kvs => !kvs.isEmpty

/-- Python membership "key in v" for the value shapes that do not raise: a
dict tests key presence, a string tests substring, a list tests element
equality; null, booleans and numbers raise TypeError (none). -/
def pyContains : JValue → String → Option Bool
  | .obj kvs, key => some (containsKey kvs key)
  | .str s, key => some (strContains s key)
  | .arr xs, key => some (xs.any (fun x => JValue.beq x (.str key)))
  | _, _ => none

/-- Python equality with the literal one-pair dict binding type to null
(line 410).  Dicts produced by json.load and by the converter carry unique
keys, so a dict equals that literal exactly when it is the singleton
binding. -/
def isNullMarker : JValue → Bool
  | .obj [(k, .str s)] => k == "type" && s == "null"
  | _ => false

/-- is_collection (lines 682-699): a two-element anyOf whose second branch
has a properties member containing Members; the try/except turns every
structural mismatch into False. -/
def is_collection : JValue → Bool
  | .obj kvs =>
      match lookupKey kvs "anyOf" with
      | some (.arr [_, b]) =>
          match b with
          | .obj bk =>
              match lookupKey bk "properties" with
              | some props => (pyContains props "Members").getD false
              | none => false
          | _ => false
      | _ => false
  | _ => false

/-- The idRef link classification (lines 471-476): the referenced
definition is an anyOf whose first item's ref mentions the idRef location;
the try/except turns every failure into False. -/
def idRefCheck : JValue → Bool
  | .obj kvs =>
      match lookupKey kvs "anyOf" with
      | some (.arr (x :: _)) =>
          match x with
          | .obj xk =>
              match lookupKey xk "$ref" with
              | some r => (pyContains r "/definitions/idRef").getD false
              | none => false
          | _ => false
      | _ => false
  | _ => false

/-! ## The environment: configuration, local files, network -/

/-- Outcome of one urllib fetch attempt: a response body (none models a
body that json.loads rejects, an uncaught ValueError), or an OSError whose
flag records whether errno equals ECONNRESET. -/
inductive FetchOutcome where
  | ok : Option JValue → FetchOutcome
  | osError : Bool → FetchOutcome

/-- The ambient inputs of the converter: configured schema locations, the
local input directory as a partial map from file name to parse result
(some none: the file exists but json.load raises), and the network as an
oracle from URL and attempt number to an outcome. -/
structure Env where
  odata_schema : String
  message_ref : String
  task_ref : String
  localFiles : String → Option (Option JValue)
  fetch : String → Nat → FetchOutcome

def retry_count_max : Nat := 20

/-- The network retry loop (lines 453-464), with fuel equal to the number
of remaining iterations retry_count_max minus retry_count.  Returns the
fetched json_ref_data together with the number of fetch attempts made;
none when json.loads raises on a fetched body.  On retry exhaustion or a
non-ECONNRESET failure the data stays at the initial empty dict. -/
def fetchLoop (env : Env) (url : String) : Nat → Nat → Option (JValue × Nat)
  | _, 0 => some (.obj [], 0)
  | retryCount, fuel + 1 =>
      match env.fetch url retryCount with
      | .ok none => none
      | .ok (some j) => some (j, 1)
      | .osError connReset =>
          if connReset then
            match fetchLoop env url (retryCount + 1) fuel with
            | none => none
            | some (j, n) => some (j, n + 1)
          else some (.obj [], 1)

/-- The branch of the reference rewrite that runs once the link
classification is settled (lines 479-482). -/
def finishExternal (env : Env) (s : String) (id_ref : Bool) : String :=
  if id_ref then env.odata_schema ++ "#/components/schemas/idRef"
  else replaceOnce s ".json#/definitions/" ".yaml#/components/schemas/"

/-- The reference-rewriting block of update_object (lines 429-482), applied
to the value bound to a ref key.  none wherever the Python code raises: a
non-string or empty reference (string indexing), a local file that fails
json.load, a fetched body that fails json.loads, or a fetched document on
which .get is called while it is not a dict. -/
def refRewriteValue (env : Env) : JValue → Option JValue
  | .str s =>
      match s.data with
      | [] => none
      | c :: _ =>
          if c = '#' then
            some (.str (replaceOnce s "#/definitions/" "#/components/schemas/"))
          else
            match pyRefMatch s with
            | some (g1, g2) =>
                if (g1 == g2) && (g1 != "Redundancy") then
                  match pyFileSearch s with
                  | some fname =>
                      match (match env.localFiles fname with
                             | some parsed => parsed.map (fun j => (j, 0))
                             | none => fetchLoop env (takeBeforeHash s) 0 retry_count_max) with
                      | none => none
                      | some (jsonRefData, _) =>
                          match jsonRefData with
                          | .obj dk =>
                              match (lookupKey dk "definitions").getD (.obj []) with
                              | .obj defsKvs =>
                                  let refDef := lookupKey defsKvs (lastSlashComp s)
                                  let id_ref := match refDef with
                                    | none => false
                                    | some d => idRefCheck d
                                  some (.str (finishExternal env s id_ref))
                              | _ => none
                          | _ => none
                  | none => some (.str (finishExternal env s false))
                else some (.str (finishExternal env s false))
            | none => some (.str (finishExternal env s false))
  | _ => none

/-! ## The per-node rewrites of update_object -/

def ONE_FOR_ONE_REPLACEMENTS : List String :=
  ["longDescription", "enumDescriptions", "enumLongDescriptions",
   "enumDeprecated", "enumVersionDeprecated", "enumVersionAdded", "units",
   "requiredOnCreate", "owningEntity", "autoExpand", "release",
   "versionDeprecated", "versionAdded", "filter", "excerpt", "excerptCopy",
   "excerptCopyOnly"]

def REMOVED_TERMS : List String :=
  ["insertable", "updatable", "deletable", "uris", "parameters",
   "requiredParameter", "actionResponse"]

/-- One iteration of the loop at lines 370-372. -/
def renameOne (kvs : KVs) (r : String) : KVs :=
  match lookupKey kvs r with
  | none => kvs
  | some v => setKey (eraseKey kvs r) ("x-" ++ r) v

/-- Lines 370-372: one-for-one vendor-term renames. -/
def oneForOneStep : List String → KVs → KVs
  | [], kvs => kvs
  | r :: rs, kvs => oneForOneStep rs (renameOne kvs r)

/-- Lines 375-376: simple removals. -/
def removeStep : List String → KVs → KVs
  | [], kvs => kvs
  | r :: rs, kvs => removeStep rs (eraseKey kvs r)

/-- Lines 380-381: rename readonly to readOnly. -/
def readonlyStep (kvs : KVs) : KVs :=
  match lookupKey kvs "readonly" with
  | none => kvs
  | some v => setKey (eraseKey kvs "readonly") "readOnly" v

/-- Lines 385-387: move the deprecation note under the vendor key and set
the plain deprecated flag to true. -/
def deprecatedStep (kvs : KVs) : KVs :=
  match lookupKey kvs "deprecated" with
  | none => kvs
  | some v =>
      setKey (setKey (eraseKey kvs "deprecated") "x-deprecatedReason" v)
        "deprecated" (.bool true)

/-- The inner loop of lines 394-396 on one pattern value: a membership test
that raises is a failure; when the test succeeds the pop requires a dict. -/
def stripTypeFromPattern (pv : JValue) : Option JValue :=
  match pyContains pv "type" with
  | none => none
  | some true =>
      match pv with
      | .obj pkvs => some (.obj (eraseKey pkvs "type"))
      | _ => none
  | some false => some pv

def mapValuesOpt (f : JValue → Option JValue) : KVs → Option KVs
  | [] => some []
  | (k, v) :: rest =>
      match f v with
      | none => none
      | some v' =>
          match mapValuesOpt f rest with
          | none => none
          | some rest' => some ((k, v') :: rest')

/-- Lines 391-396: move patternProperties under the vendor key and strip
the inner type marker from each pattern value.  Iterating a non-empty
string or list and indexing back into the moved value raises, as does
iterating a scalar. -/
def patternPropsStep (kvs : KVs) : Option KVs :=
  match lookupKey kvs "patternProperties" with
  | none => some kvs
  | some v =>
      let kvs1 := setKey (eraseKey kvs "patternProperties") "x-patternProperties" v
      match v with
      | .obj pkvs =>
          match mapValuesOpt stripTypeFromPattern pkvs with
          | none => none
          | some pkvs' => some (setKey kvs1 "x-patternProperties" (.obj pkvs'))
      | .str s => if s.isEmpty then some kvs1 else none
      | .arr xs => if xs.isEmpty then some kvs1 else none
      | _ => none

/-- Lines 400-403: collapse a list-valued type to its first element and
set nullable; indexing an empty list raises. -/
def typeStep (kvs : KVs) : Option KVs :=
  match lookupKey kvs "type" with
  | some (.arr []) => none
  | some (.arr (x :: _)) =>
      some (setKey (setKey kvs "type" x) "nullable" (.bool true))
  | _ => some kvs

/-- Lines 406-417: collapse an anyOf with exactly one non-null item into a
direct reference when the first item carries a ref key and a null marker is
present.  Mirrors the Python guard evaluation order: once the count is 1
the first element is indexed before is_nullable is consulted, so iterating
a one-entry dict raises at the integer index, and a first item passing the
membership test but not indexable by the key raises at the final index. -/
def anyOfStep (kvs : KVs) : Option KVs :=
  match lookupKey kvs "anyOf" with
  | none => some kvs
  | some (.arr items) =>
      let objCount := (items.filter (fun it => !isNullMarker it)).length
      let isNullable := items.any isNullMarker
      if objCount == 1 then
        match items with
        | [] => some kvs
        | v0 :: _ =>
            match pyContains v0 "$ref" with
            | none => none
            | some false => some kvs
            | some true =>
                if isNullable then
                  match v0 with
                  | .obj a =>
                      match lookupKey a "$ref" with
                      | none => none
                      | some r =>
                          some (setKey (eraseKey (setKey kvs "$ref" r) "anyOf")
                            "nullable" (.bool true))
                  | _ => none
                else some kvs
      else some kvs
  | some (.str _) => some kvs
  | some (.obj a) => if a.length == 1 then none else some kvs
  | some _ => none

/-- Lines 420-426: unwrap resource-collection children, replacing each
two-branch anyOf value identified by is_collection with its second
branch. -/
def collectionStep (kvs : KVs) : KVs :=
  kvs.map (fun p =>
    if is_collection p.2 then
      (p.1, match p.2 with
            | .obj ckvs =>
                match lookupKey ckvs "anyOf" with
                | some (.arr [_, b]) => b
                | _ => p.2
            | _ => p.2)
    else p)

/-- Lines 429-482: rewrite the ref key in place. -/
def refStep (env : Env) (kvs : KVs) : Option KVs :=
  match lookupKey kvs "$ref" with
  | none => some kvs
  | some v =>
      match refRewriteValue env v with
      | none => none
      | some v' => some (setKey kvs "$ref" v')

/-- The per-node rewrites of update_object (lines 369-482), in source
order, before the recursive descent into children. -/
def phaseA (env : Env) (kvs : KVs) : Option KVs :=
  (patternPropsStep (deprecatedStep (readonlyStep
      (removeStep REMOVED_TERMS (oneForOneStep ONE_FOR_ONE_REPLACEMENTS kvs))))).bind
    (fun k5 => (typeStep k5).bind
      (fun k6 => (anyOfStep k6).bind
        (fun k7 => refStep env (collectionStep k7))))

/-! ## The recursive walk of update_object (lines 485-491):
only child mappings, and mappings directly inside a child sequence, are
recursed into; every other value is left untouched. -/

def travElem (rec : JValue → Option JValue) : JValue → Option JValue
  | .obj kvs => rec (.obj kvs)
  | v => some v

def travArr (rec : JValue → Option JValue) : List JValue → Option (List JValue)
  | [] => some []
  | x :: rest => (travElem rec x).bind (fun x' => (travArr rec rest).map (x' :: ·))

def travVal (rec : JValue → Option JValue) : JValue → Option JValue
  | .obj kvs => rec (.obj kvs)
  | .arr xs => (travArr rec xs).map .arr
  | v => some v

def travKVs (rec : JValue → Option JValue) : KVs → Option KVs
  | [] => some []
  | (k, v) :: rest =>
      (travVal rec v).bind (fun v' => (travKVs rec rest).map ((k, v') :: ·))

/-- update_object (lines 361-491) with explicit recursion fuel: one unit
per descent into a child mapping.  The wrapper update_object supplies the
structural depth of the node plus one; the per-node rewrites only move
subterms around, so this bound is never exhausted on a run the Python code
completes. -/
def updateObjectF (env : Env) : Nat → JValue → Option JValue
  | 0, _ => none
  | fuel + 1, .obj kvs =>
      (phaseA env kvs).bind
        (fun kvs' => (travKVs (updateObjectF env fuel) kvs').map .obj)
  | _ + 1, v => some v

mutual

def jdepth : JValue → Nat
  | .arr xs => 1 + jdepthList xs
  | .obj kvs => 1 + jdepthKVs kvs
  | _ => 0

def jdepthList : List JValue → Nat
  | [] => 0
  | x :: xs => max (jdepth x) (jdepthList xs)

def jdepthKVs : KVs → Nat
  | [] => 0
  | (_, v) :: rest => max (jdepth v) (jdepthKVs rest)

end

/-- update_object (lines 361-491): the Reference Rewriter applied to one
node, recursing into every child mapping and every mapping inside a child
sequence.  none models an uncaught Python exception. -/
def update_object (env : Env) (j : JValue) : Option JValue :=
  updateObjectF env (jdepth j + 1) j

/-! ## Helper lemmas about the dictionary operations and rewrite steps -/

def keyFree (kvs : KVs) (rs : List String) : Bool :=
  rs.all (fun r => !containsKey kvs r)

theorem lookupKey_eq_none_of_not_containsKey {kvs : KVs} {k : String}
    (h : containsKey kvs k = false) : lookupKey kvs k = none := by
  induction kvs with
  | nil => rfl
  | cons p rest ih =>
      obtain ⟨k0, w⟩ := p
      simp [containsKey] at h
      simp [lookupKey, h.1, ih (by simpa [containsKey] using h.2)]

theorem renameOne_of_not_contains {kvs : KVs} {r : String}
    (h : containsKey kvs r = false) : renameOne kvs r = kvs := by
  simp [renameOne, lookupKey_eq_none_of_not_containsKey h]

theorem oneForOneStep_of_keyFree :
    ∀ (rs : List String) (kvs : KVs), keyFree kvs rs = true →
      oneForOneStep rs kvs = kvs
  | [], _, _ => rfl
  | r :: rs, kvs, h => by
      simp only [keyFree, List.all_cons, Bool.and_eq_true] at h
      have h1 : containsKey kvs r = false := by simpa using h.1
      rw [oneForOneStep, renameOne_of_not_contains h1]
      exact oneForOneStep_of_keyFree rs kvs h.2

theorem removeStep_of_keyFree :
    ∀ (rs : List String) (kvs : KVs), keyFree kvs rs = true →
      removeStep rs kvs = kvs
  | [], _, _ => rfl
  | r :: rs, kvs, h => by
      simp only [keyFree, List.all_cons, Bool.and_eq_true] at h
      have h1 : containsKey kvs r = false := by simpa using h.1
      rw [removeStep, eraseKey_of_not_containsKey kvs r h1]
      exact removeStep_of_keyFree rs kvs h.2

theorem readonlyStep_absent {kvs : KVs}
    (h : containsKey kvs "readonly" = false) : readonlyStep kvs = kvs := by
  simp [readonlyStep, lookupKey_eq_none_of_not_containsKey h]

theorem deprecatedStep_absent {kvs : KVs}
    (h : containsKey kvs "deprecated" = false) : deprecatedStep kvs = kvs := by
  simp [deprecatedStep, lookupKey_eq_none_of_not_containsKey h]

theorem patternPropsStep_absent {kvs : KVs}
    (h : containsKey kvs "patternProperties" = false) :
    patternPropsStep kvs = some kvs := by
  simp [patternPropsStep, lookupKey_eq_none_of_not_containsKey h]

theorem typeStep_absent {kvs : KVs}
    (h : containsKey kvs "type" = false) : typeStep kvs = some kvs := by
  simp [typeStep, lookupKey_eq_none_of_not_containsKey h]

theorem typeStep_list (kvs : KVs) (x : JValue) (xs : List JValue)
    (h : lookupKey kvs "type" = some (.arr (x :: xs))) :
    typeStep kvs = some (setKey (setKey kvs "type" x) "nullable" (.bool true)) := by
  simp [typeStep, h]

theorem anyOfStep_absent {kvs : KVs}
    (h : containsKey kvs "anyOf" = false) : anyOfStep kvs = some kvs := by
  simp [anyOfStep, lookupKey_eq_none_of_not_containsKey h]

theorem refStep_absent {env : Env} {kvs : KVs}
    (h : containsKey kvs "$ref" = false) : refStep env kvs = some kvs := by
  simp [refStep, lookupKey_eq_none_of_not_containsKey h]

theorem refStep_present {env : Env} {kvs : KVs} {v : JValue}
    (h : lookupKey kvs "$ref" = some v) :
    refStep env kvs = (refRewriteValue env v).map (setKey kvs "$ref") := by
  simp only [refStep, h]
  cases hr : refRewriteValue env v <;> simp [hr]

theorem collectionStep_of_none {kvs : KVs}
    (h : ∀ p ∈ kvs, is_collection p.2 = false) : collectionStep kvs = kvs := by
  induction kvs with
  | nil => rfl
  | cons p rest ih =>
      have hp : is_collection p.2 = false := h p (by simp)
      have hrest : collectionStep rest = rest :=
        ih (fun q hq => h q (by simp [hq]))
      simp only [collectionStep] at hrest ⊢
      simp [hp, hrest]

theorem containsKey_of_lookupKey {kvs : KVs} {k : String} {v : JValue}
    (h : lookupKey kvs k = some v) : containsKey kvs k = true := by
  induction kvs with
  | nil => simp [lookupKey] at h
  | cons p rest ih =>
      obtain ⟨k0, w⟩ := p
      by_cases h0 : k0 = k
      · simp [containsKey, h0]
      · simp only [lookupKey, if_neg h0] at h
        simp [containsKey, h0, ih h]

theorem isNullMarker_of_ref {aKvs : KVs} {v : JValue}
    (h : lookupKey aKvs "$ref" = some v) : isNullMarker (.obj aKvs) = false := by
  match aKvs with
  | [] => simp [lookupKey] at h
  | [(k, .str s)] =>
      simp only [lookupKey] at h
      split at h
      · rename_i hk
        subst hk
        simp [isNullMarker]
      · simp [lookupKey] at h
  | [(k, .null)] | [(k, .bool _)] | [(k, .num _)] | [(k, .arr _)] | [(k, .obj _)] =>
      simp [isNullMarker]
  | p :: q :: rest => simp [isNullMarker]

theorem anyOfStep_collapse (kvs aKvs : KVs) (rest : List JValue) (r : JValue)
    (hl : lookupKey kvs "anyOf" = some (.arr (.obj aKvs :: rest)))
    (href : lookupKey aKvs "$ref" = some r)
    (hrest : ∀ x ∈ rest, isNullMarker x = true)
    (hne : rest ≠ []) :
    anyOfStep kvs =
      some (setKey (eraseKey (setKey kvs "$ref" r) "anyOf") "nullable" (.bool true)) := by
  have hmark : isNullMarker (.obj aKvs) = false := isNullMarker_of_ref href
  have hfilter : rest.filter (fun it => !isNullMarker it) = [] := by
    rw [List.filter_eq_nil_iff]
    intro x hx
    simp [hrest x hx]
  have hany : (JValue.obj aKvs :: rest).any isNullMarker = true := by
    obtain ⟨x, xs, rfl⟩ : ∃ x xs, rest = x :: xs := by
      cases rest with
      | nil => exact absurd rfl hne
      | cons x xs => exact ⟨x, xs, rfl⟩
    simp [List.any_cons, hrest x (by simp)]
  have hcont : pyContains (.obj aKvs) "$ref" = some true := by
    simp [pyContains, containsKey_of_lookupKey href]
  rw [anyOfStep, hl]
  simp only [List.filter_cons, hmark, Bool.not_false, if_pos, hfilter, List.length_cons,
    List.length_nil, hany, hcont, href]
  norm_num

/-- Unfolding of update_object on a mapping node. -/
theorem update_object_obj (env : Env) (kvs : KVs) :
    update_object env (.obj kvs) =
      (phaseA env kvs).bind
        (fun kvs' => (travKVs (updateObjectF env (jdepth (.obj kvs))) kvs').map .obj) :=
  rfl

/-- A concrete environment: no local files, every fetch fails with an
OSError that is not a connection reset. -/
def env0 : Env :=
  { odata_schema := "http://redfish.dmtf.org/schemas/v1/odata-v4.yaml"
    message_ref := "http://redfish.dmtf.org/schemas/v1/Message.v1_0_8.yaml#/components/schemas/Message"
    task_ref := "http://redfish.dmtf.org/schemas/v1/Task.v1_4_2.yaml#/components/schemas/Task"
    localFiles := fun _ => none
    fetch := fun _ _ => .osError false }

/-! ## Claim C1 -/

/-- C1 counterexample: the mapping whose type is the two-element list
null, string holds the literal "null", but update_object rewrites its type
to "null" (the first element), not to the non-null element "string", so
the claim as stated fails at this node. -/
theorem c1_counterexample :
    update_object env0 (.obj [("type", .arr [.str "null", .str "string"])]) =
      some (.obj [("type", .str "null"), ("nullable", .bool true)]) ∧
    lookupKey [(("type" : String), JValue.str "null"),
      (("nullable" : String), JValue.bool true)] "type" ≠ some (.str "string") := by
  constructor
  · decide
  · decide

/-- C1 amended: for a mapping node whose type is a two-element list
containing the literal "null", update_object rewrites type to the FIRST
element of the list (which equals the non-null element exactly when "null"
is listed second) and sets nullable to true. -/
theorem c1_type_list_takes_first (env : Env) (sa : String) (b : JValue)
    (h : sa = "null" ∨ b = .str "null") :
    update_object env (.obj [("type", .arr [.str sa, b])]) =
      some (.obj [("type", .str sa), ("nullable", .bool true)]) := by
  have e1 : oneForOneStep ONE_FOR_ONE_REPLACEMENTS [("type", JValue.arr [.str sa, b])] =
      [("type", JValue.arr [.str sa, b])] := oneForOneStep_of_keyFree _ _ rfl
  have e2 : removeStep REMOVED_TERMS [("type", JValue.arr [.str sa, b])] =
      [("type", JValue.arr [.str sa, b])] := removeStep_of_keyFree _ _ rfl
  have e3 : readonlyStep [("type", JValue.arr [.str sa, b])] =
      [("type", JValue.arr [.str sa, b])] := readonlyStep_absent rfl
  have e4 : deprecatedStep [("type", JValue.arr [.str sa, b])] =
      [("type", JValue.arr [.str sa, b])] := deprecatedStep_absent rfl
  have e5 : patternPropsStep [("type", JValue.arr [.str sa, b])] =
      some [("type", JValue.arr [.str sa, b])] := patternPropsStep_absent rfl
  have e6 : typeStep [("type", JValue.arr [.str sa, b])] =
      some [("type", .str sa), ("nullable", .bool true)] := by
    rw [typeStep_list [("type", JValue.arr [.str sa, b])] (.str sa) [b] rfl]
    rfl
  have e7 : anyOfStep [(("type" : String), JValue.str sa), ("nullable", .bool true)] =
      some [("type", .str sa), ("nullable", .bool true)] := anyOfStep_absent rfl
  have e8 : collectionStep [(("type" : String), JValue.str sa), ("nullable", .bool true)] =
      [("type", .str sa), ("nullable", .bool true)] :=
    collectionStep_of_none (by
      intro p hp
      simp at hp
      rcases hp with rfl | rfl <;> rfl)
  have e9 : refStep env [(("type" : String), JValue.str sa), ("nullable", .bool true)] =
      some [("type", .str sa), ("nullable", .bool true)] := refStep_absent rfl
  have hA : phaseA env [("type", JValue.arr [.str sa, b])] =
      some [("type", .str sa), ("nullable", .bool true)] := by
    unfold phaseA
    rw [e1, e2, e3, e4, e5, Option.some_bind, e6, Option.some_bind, e7,
      Option.some_bind, e8, e9]
  rw [update_object_obj, hA, Option.some_bind]
  rfl

theorem c1_witness :
    ("string" = "null" ∨ JValue.str "null" = JValue.str "null") ∧
    update_object env0 (.obj [("type", .arr [.str "string", .str "null"])]) =
      some (.obj [("type", .str "string"), ("nullable", .bool true)]) :=
  ⟨Or.inr rfl, c1_type_list_takes_first env0 "string" (.str "null") (Or.inr rfl)⟩

/-! ## Claim C3 -/

/-- Every value the reference rewrite produces is a string. -/
theorem refRewriteValue_is_str {env : Env} {r : String} {v : JValue}
    (h : refRewriteValue env (.str r) = some v) : ∃ t, v = .str t := by
  unfold refRewriteValue at h
  repeat' split at h
  all_goals first
    | exact ⟨_, (Option.some_inj.mp h).symm⟩
    | (simp at h; exact ⟨_, h.symm⟩)
    | simp at h

/-- C3 counterexample: a two-item anyOf whose FIRST item is the null-type
marker and whose second carries the only ref satisfies the claim's
hypotheses (exactly one alternative carrying a ref, at least one null
marker), yet update_object leaves the node's anyOf in place and sets no
nullable flag, because the guard at line 414 indexes item 0. -/
theorem c3_counterexample :
    update_object env0 (.obj [("anyOf", .arr [.obj [("type", .str "null")],
        .obj [("$ref", .str "#/components/schemas/Bar")]])]) =
      some (.obj [("anyOf", .arr [.obj [("type", .str "null")],
        .obj [("$ref", .str "#/components/schemas/Bar")]])]) ∧
    containsKey [(("anyOf" : String), JValue.arr [.obj [("type", .str "null")],
        .obj [("$ref", .str "#/components/schemas/Bar")]])] "anyOf" = true ∧
    lookupKey [(("anyOf" : String), JValue.arr [.obj [("type", .str "null")],
        .obj [("$ref", .str "#/components/schemas/Bar")]])] "nullable" = none := by
  refine ⟨by decide, by decide, by decide⟩

/-- C3 amended: for a mapping node whose anyOf list has a FIRST element
carrying a ref and whose remaining elements are all the null-type marker
(so exactly one non-null alternative, in first position) with at least one
marker present, update_object removes anyOf, installs that reference value
under the ref key (subsequently rewritten by the reference-path rules of
the same pass), and sets nullable to true. -/
theorem c3_anyof_collapse (env : Env) (aKvs : KVs) (r : String)
    (rest : List JValue)
    (h1 : lookupKey aKvs "$ref" = some (.str r))
    (h2 : ∀ x ∈ rest, x = .obj [("type", .str "null")])
    (h3 : rest ≠ []) :
    update_object env (.obj [("anyOf", .arr (.obj aKvs :: rest))]) =
      (refRewriteValue env (.str r)).map
        (fun v => .obj [("$ref", v), ("nullable", .bool true)]) := by
  have e1 : oneForOneStep ONE_FOR_ONE_REPLACEMENTS
      [("anyOf", JValue.arr (.obj aKvs :: rest))] =
      [("anyOf", JValue.arr (.obj aKvs :: rest))] := oneForOneStep_of_keyFree _ _ rfl
  have e2 : removeStep REMOVED_TERMS [("anyOf", JValue.arr (.obj aKvs :: rest))] =
      [("anyOf", JValue.arr (.obj aKvs :: rest))] := removeStep_of_keyFree _ _ rfl
  have e3 : readonlyStep [("anyOf", JValue.arr (.obj aKvs :: rest))] =
      [("anyOf", JValue.arr (.obj aKvs :: rest))] := readonlyStep_absent rfl
  have e4 : deprecatedStep [("anyOf", JValue.arr (.obj aKvs :: rest))] =
      [("anyOf", JValue.arr (.obj aKvs :: rest))] := deprecatedStep_absent rfl
  have e5 : patternPropsStep [("anyOf", JValue.arr (.obj aKvs :: rest))] =
      some [("anyOf", JValue.arr (.obj aKvs :: rest))] := patternPropsStep_absent rfl
  have e6 : typeStep [("anyOf", JValue.arr (.obj aKvs :: rest))] =
      some [("anyOf", JValue.arr (.obj aKvs :: rest))] := typeStep_absent rfl
  have e7 : anyOfStep [("anyOf", JValue.arr (.obj aKvs :: rest))] =
      some [("$ref", .str r), ("nullable", .bool true)] := by
    rw [anyOfStep_collapse [("anyOf", JValue.arr (.obj aKvs :: rest))] aKvs rest
      (.str r) rfl h1 (fun x hx => by rw [h2 x hx]; rfl) h3]
    rfl
  have e8 : collectionStep [(("$ref" : String), JValue.str r),
      ("nullable", .bool true)] =
      [("$ref", .str r), ("nullable", .bool true)] :=
    collectionStep_of_none (by
      intro p hp
      simp at hp
      rcases hp with rfl | rfl <;> rfl)
  have e9 : refStep env [(("$ref" : String), JValue.str r), ("nullable", .bool true)] =
      (refRewriteValue env (.str r)).map
        (setKey [(("$ref" : String), JValue.str r), ("nullable", .bool true)] "$ref") :=
    refStep_present rfl
  have hA : phaseA env [("anyOf", JValue.arr (.obj aKvs :: rest))] =
      (refRewriteValue env (.str r)).map
        (setKey [(("$ref" : String), JValue.str r), ("nullable", .bool true)] "$ref") := by
    unfold phaseA
    rw [e1, e2, e3, e4, e5, Option.some_bind, e6, Option.some_bind, e7,
      Option.some_bind, e8, e9]
  rw [update_object_obj, hA]
  cases hr : refRewriteValue env (.str r) with
  | none => rfl
  | some v =>
      obtain ⟨t, rfl⟩ := refRewriteValue_is_str hr
      rfl

theorem c3_witness :
    update_object env0 (.obj [("anyOf", .arr [.obj [("$ref", .str "#/definitions/Bar")],
        .obj [("type", .str "null")]])]) =
      (refRewriteValue env0 (.str "#/definitions/Bar")).map
        (fun v => .obj [("$ref", v), ("nullable", .bool true)]) :=
  c3_anyof_collapse env0 [("$ref", .str "#/definitions/Bar")] "#/definitions/Bar"
    [.obj [("type", .str "null")]] rfl
    (fun x hx => by simpa using hx) (by simp)

/-! ## Claim C2: stability of already-rewritten nodes -/

theorem setKey_lookup_self : ∀ (kvs : KVs) (k : String) (v : JValue),
    lookupKey kvs k = some v → setKey kvs k v = kvs
  | [], k, v, h => by simp [lookupKey] at h
  | (k0, w) :: rest, k, v, h => by
      by_cases h0 : k0 = k
      · subst h0
        rw [lookupKey] at h
        simp at h
        simp [setKey, h]
      · simp only [lookupKey, if_neg h0] at h
        simp [setKey, h0, setKey_lookup_self rest k v h]

theorem occIdx_ne_nil_of_isPrefixOf {pat l : List Char} {i : Nat}
    (h : pat.isPrefixOf l = true) : occIdx pat l i ≠ [] := by
  cases l with
  | nil =>
      have : pat = [] := by
        cases pat with
        | nil => rfl
        | cons c cs => simp [List.isPrefixOf] at h
      simp [occIdx, this]
  | cons x rest => simp [occIdx, h]

theorem occIdx_tail_pat : ∀ (l : List Char) (c : Char) (pat : List Char) (i : Nat),
    occIdx (c :: pat) l i ≠ [] → occIdx pat l i ≠ []
  | [], c, pat, i, h => by simp [occIdx] at h
  | x :: rest, c, pat, i, h => by
      simp only [occIdx] at h ⊢
      by_cases hpre : (c :: pat).isPrefixOf (x :: rest)
      · have hpre' : (c == x && pat.isPrefixOf rest) = true := by
          simpa [List.isPrefixOf] using hpre
        have hx : pat.isPrefixOf rest = true := by
          simp only [Bool.and_eq_true] at hpre'
          exact hpre'.2
        have : occIdx pat rest (i + 1) ≠ [] := occIdx_ne_nil_of_isPrefixOf hx
        intro hcontra
        exact this (by
          rcases List.append_eq_nil.mp hcontra with ⟨_, h2⟩
          exact h2)
      · simp only [hpre, if_false, List.nil_append] at h
        have := occIdx_tail_pat rest c pat (i + 1) h
        intro hcontra
        exact this (by
          rcases List.append_eq_nil.mp hcontra with ⟨_, h2⟩
          exact h2)

theorem strContains_dotted {s : String}
    (h : strContains s "json#/definitions/" = false) :
    strContains s ".json#/definitions/" = false := by
  by_contra hc
  have hc' : strContains s ".json#/definitions/" = true := by
    cases hx : strContains s ".json#/definitions/"
    · exact absurd hx hc
    · rfl
  have h1 : occIdx (".json#/definitions/".data) s.data 0 ≠ [] := by
    simpa [strContains, List.isEmpty_iff] using hc'
  have h2 : occIdx ("json#/definitions/".data) s.data 0 ≠ [] := by
    have : (".json#/definitions/".data) = '.' :: ("json#/definitions/".data) := by decide
    rw [this] at h1
    exact occIdx_tail_pat _ _ _ _ h1
  have h3 : occIdx ("json#/definitions/".data) s.data 0 = [] := by
    simpa [strContains, List.isEmpty_iff] using h
  exact h2 h3

theorem pyRefMatch_none {s : String}
    (h : strContains s "json#/definitions/" = false) : pyRefMatch s = none := by
  have hocc : occIdx jsonDefsPat s.data 0 = [] := by
    simpa [strContains, List.isEmpty_iff, jsonDefsPat] using h
  simp [pyRefMatch, hocc]

/-- The stability conditions on the type value: rule 6 is inert unless the
value is a list. -/
def typeOk (kvs : KVs) : Bool :=
  match lookupKey kvs "type" with
  | some (.arr _) => false
  | _ => true

/-- The stability conditions on the anyOf value: the collapse guard of
lines 406-417 neither fires nor raises. -/
def anyOfOk (kvs : KVs) : Bool :=
  match lookupKey kvs "anyOf" with
  | none => true
  | some (.arr items) =>
      if (items.filter (fun it => !isNullMarker it)).length == 1 then
        match items with
        | [] => true
        | v0 :: _ =>
            match pyContains v0 "$ref" with
            | some false => true
            | some true => !(items.any isNullMarker)
            | none => false
      else true
  | some (.str _) => true
  | some (.obj a) => !(a.length == 1)
  | some _ => false

/-- The stability conditions on the ref value: already in target form, so
neither the local nor the external rewrite of lines 429-482 changes it. -/
def refOk (kvs : KVs) : Bool :=
  match lookupKey kvs "$ref" with
  | none => true
  | some (.str s) =>
      match s.data with
      | [] => false
      | c :: _ =>
          if c = '#' then !(strContains s "#/definitions/")
          else !(strContains s "json#/definitions/")
  | some _ => false

/-- Every key that any rewrite of lines 369-396 consumes. -/
def sourceKeys : List String :=
  ONE_FOR_ONE_REPLACEMENTS ++ REMOVED_TERMS ++
    ["readonly", "deprecated", "patternProperties"]

/-- A node whose own keys trigger none of the per-node rewrites. -/
def stableNode (kvs : KVs) : Bool :=
  keyFree kvs sourceKeys && typeOk kvs && anyOfOk kvs &&
    kvs.all (fun p => !is_collection p.2) && refOk kvs

theorem typeStep_of_typeOk {kvs : KVs} (h : typeOk kvs = true) :
    typeStep kvs = some kvs := by
  unfold typeOk at h
  cases hl : lookupKey kvs "type" with
  | none => simp [typeStep, hl]
  | some v =>
      rw [hl] at h
      cases v with
      | arr l => simp at h
      | null => simp [typeStep, hl]
      | bool b => simp [typeStep, hl]
      | num n => simp [typeStep, hl]
      | str t => simp [typeStep, hl]
      | obj o => simp [typeStep, hl]

theorem anyOfStep_of_anyOfOk {kvs : KVs} (h : anyOfOk kvs = true) :
    anyOfStep kvs = some kvs := by
  unfold anyOfOk at h
  split at h
  next heq => simp [anyOfStep, heq]
  next items heq =>
      by_cases hc : ((items.filter (fun it => !isNullMarker it)).length == 1) = true
      · rw [if_pos hc] at h
        split at h
        next => simp [anyOfStep, heq, hc]
        next v0 tail =>
            split at h
            next hp => simp [anyOfStep, heq, hc, hp]
            next hp =>
                simp only [Bool.not_eq_true'] at h
                simp [anyOfStep, heq, hc, hp, h]
            next hp => simp at h
      · have hc' : ((items.filter (fun it => !isNullMarker it)).length == 1) = false := by
          simpa using hc
        simp [anyOfStep, heq, hc']
  next s heq => simp [anyOfStep, heq]
  next a heq =>
      simp only [Bool.not_eq_true'] at h
      simp [anyOfStep, heq, h]
  next v heq h1 h2 h3 => simp at h

theorem refStep_of_refOk {env : Env} {kvs : KVs} (h : refOk kvs = true) :
    refStep env kvs = some kvs := by
  unfold refOk at h
  split at h
  next heq => simp [refStep, heq]
  next s heq =>
      split at h
      next hd => simp at h
      next c cs hd =>
          have hrw : refRewriteValue env (.str s) = some (.str s) := by
            by_cases hc : c = '#'
            · rw [if_pos hc] at h
              have hnc : strContains s "#/definitions/" = false := by simpa using h
              unfold refRewriteValue
              simp only [hd]
              rw [if_pos hc, replaceOnce_of_not_contains _ _ _ hnc]
            · rw [if_neg hc] at h
              have h1 : strContains s "json#/definitions/" = false := by simpa using h
              have h2 : strContains s ".json#/definitions/" = false :=
                strContains_dotted h1
              unfold refRewriteValue
              simp only [hd]
              rw [if_neg hc, pyRefMatch_none h1]
              simp [finishExternal, replaceOnce_of_not_contains _ _ _ h2]
          rw [refStep_present heq, hrw]
          simp [setKey_lookup_self _ _ _ heq]
  next v heq h1 h2 => simp at h

theorem phaseA_of_stableNode {env : Env} {kvs : KVs}
    (h : stableNode kvs = true) : phaseA env kvs = some kvs := by
  unfold stableNode at h
  simp only [Bool.and_eq_true] at h
  obtain ⟨⟨⟨⟨hkf, hty⟩, hao⟩, hcol⟩, href⟩ := h
  have hsplit : keyFree kvs ONE_FOR_ONE_REPLACEMENTS = true ∧
      keyFree kvs REMOVED_TERMS = true ∧
      keyFree kvs ["readonly", "deprecated", "patternProperties"] = true := by
    unfold sourceKeys at hkf
    simp only [keyFree, List.all_append, Bool.and_eq_true] at hkf
    exact ⟨hkf.1.1, hkf.1.2, hkf.2⟩
  have hro : containsKey kvs "readonly" = false := by
    have := hsplit.2.2
    simp [keyFree] at this
    simpa using this.1
  have hdep : containsKey kvs "deprecated" = false := by
    have := hsplit.2.2
    simp [keyFree] at this
    simpa using this.2.1
  have hpp : containsKey kvs "patternProperties" = false := by
    have := hsplit.2.2
    simp [keyFree] at this
    simpa using this.2.2
  have hcol' : ∀ p ∈ kvs, is_collection p.2 = false := by
    intro p hp
    have := List.all_eq_true.mp hcol p hp
    simpa using this
  unfold phaseA
  rw [oneForOneStep_of_keyFree _ _ hsplit.1, removeStep_of_keyFree _ _ hsplit.2.1,
    readonlyStep_absent hro, deprecatedStep_absent hdep, patternPropsStep_absent hpp,
    Option.some_bind, typeStep_of_typeOk hty, Option.some_bind,
    anyOfStep_of_anyOfOk hao, Option.some_bind,
    collectionStep_of_none hcol', refStep_of_refOk href]

mutual

/-- Hereditary stability: a value all of whose reachable mappings (the
ones the recursive walk visits) are stable nodes. -/
def stableVal : JValue → Bool
  | .obj kvs => stableNode kvs && stableVals kvs
  | .arr xs => stableElems xs
  | _ => true

def stableVals : KVs → Bool
  | [] => true
  | (_, v) :: rest => stableVal v && stableVals rest

/-- Elements of a child sequence: only mappings are visited, so only
mappings carry conditions. -/
def stableElem : JValue → Bool
  | .obj kvs => stableNode kvs && stableVals kvs
  | _ => true

def stableElems : List JValue → Bool
  | [] => true
  | x :: rest => stableElem x && stableElems rest

end

theorem travArr_stable (env : Env) (f : Nat)
    (ih : ∀ ckvs : KVs, stableNode ckvs = true → stableVals ckvs = true →
      jdepthKVs ckvs < f → updateObjectF env f (.obj ckvs) = some (.obj ckvs)) :
    ∀ xs : List JValue, stableElems xs = true → jdepthList xs < f + 1 →
      travArr (updateObjectF env f) xs = some xs := by
  intro xs
  induction xs with
  | nil => intro _ _; rfl
  | cons x rest ihx =>
      intro hs hd
      simp only [stableElems, Bool.and_eq_true] at hs
      have hdmax : max (jdepth x) (jdepthList rest) < f + 1 := by
        simpa [jdepthList] using hd
      have hd1 : jdepth x < f + 1 := lt_of_le_of_lt (le_max_left _ _) hdmax
      have hd2 : jdepthList rest < f + 1 := lt_of_le_of_lt (le_max_right _ _) hdmax
      have hr : travArr (updateObjectF env f) rest = some rest := ihx hs.2 hd2
      cases x with
      | obj ckvs =>
          have hsx : stableNode ckvs = true ∧ stableVals ckvs = true := by
            simpa [stableElem, Bool.and_eq_true] using hs.1
          have hdc : jdepthKVs ckvs < f := by
            have : 1 + jdepthKVs ckvs < f + 1 := by simpa [jdepth] using hd1
            omega
          simp [travArr, travElem, ih ckvs hsx.1 hsx.2 hdc, hr]
      | null => simp [travArr, travElem, hr]
      | bool b => simp [travArr, travElem, hr]
      | num n => simp [travArr, travElem, hr]
      | str s => simp [travArr, travElem, hr]
      | arr ys => simp [travArr, travElem, hr]

theorem travKVs_stable (env : Env) (f : Nat)
    (ih : ∀ ckvs : KVs, stableNode ckvs = true → stableVals ckvs = true →
      jdepthKVs ckvs < f → updateObjectF env f (.obj ckvs) = some (.obj ckvs)) :
    ∀ kvs : KVs, stableVals kvs = true → jdepthKVs kvs < f + 1 →
      travKVs (updateObjectF env f) kvs = some kvs := by
  intro kvs
  induction kvs with
  | nil => intro _ _; rfl
  | cons p rest ihp =>
      obtain ⟨k, v⟩ := p
      intro hs hd
      simp only [stableVals, Bool.and_eq_true] at hs
      have hdmax : max (jdepth v) (jdepthKVs rest) < f + 1 := by
        simpa [jdepthKVs] using hd
      have hd1 : jdepth v < f + 1 := lt_of_le_of_lt (le_max_left _ _) hdmax
      have hd2 : jdepthKVs rest < f + 1 := lt_of_le_of_lt (le_max_right _ _) hdmax
      have hr : travKVs (updateObjectF env f) rest = some rest := ihp hs.2 hd2
      cases v with
      | obj ckvs =>
          have hsx : stableNode ckvs = true ∧ stableVals ckvs = true := by
            simpa [stableVal, Bool.and_eq_true] using hs.1
          have hdc : jdepthKVs ckvs < f := by
            have : 1 + jdepthKVs ckvs < f + 1 := by simpa [jdepth] using hd1
            omega
          simp [travKVs, travVal, ih ckvs hsx.1 hsx.2 hdc, hr]
      | arr xs =>
          have hsx : stableElems xs = true := by
            simpa [stableVal] using hs.1
          have hdx : jdepthList xs < f + 1 := by
            have : 1 + jdepthList xs < f + 1 := by simpa [jdepth] using hd1
            omega
          simp [travKVs, travVal, travArr_stable env f ih xs hsx hdx, hr]
      | null => simp [travKVs, travVal, hr]
      | bool b => simp [travKVs, travVal, hr]
      | num n => simp [travKVs, travVal, hr]
      | str s => simp [travKVs, travVal, hr]

theorem updateObjectF_stable (env : Env) :
    ∀ (f : Nat) (kvs : KVs), stableNode kvs = true → stableVals kvs = true →
      jdepthKVs kvs < f → updateObjectF env f (.obj kvs) = some (.obj kvs) := by
  intro f
  induction f with
  | zero => intro kvs _ _ h; omega
  | succ f ih =>
      intro kvs hn hv hd
      have htr : travKVs (updateObjectF env f) kvs = some kvs :=
        travKVs_stable env f ih kvs hv hd
      simp [updateObjectF, phaseA_of_stableNode hn, htr]

/-! ## Claim C2 theorems -/

/-- C2 counterexample: the node holding only a deprecated note is rewritten
once into a node that still carries a deprecated key (set to true), so the
second application of update_object rewrites again, overwriting the moved
note under the vendor key with true: re-running is not a no-op on this
already-rewritten node. -/
theorem c2_counterexample :
    update_object env0 (.obj [("deprecated", .str "old")]) =
      some (.obj [("x-deprecatedReason", .str "old"), ("deprecated", .bool true)]) ∧
    update_object env0 (.obj [("x-deprecatedReason", .str "old"),
        ("deprecated", .bool true)]) =
      some (.obj [("x-deprecatedReason", .bool true), ("deprecated", .bool true)]) ∧
    JValue.obj [("x-deprecatedReason", .bool true), ("deprecated", .bool true)] ≠
      .obj [("x-deprecatedReason", .str "old"), ("deprecated", .bool true)] := by
  refine ⟨by decide, by decide, by decide⟩

/-- C2 amended: update_object is a no-op on every node that hereditarily
contains none of the source-dialect constructs it rewrites (stableVal: no
rename-source, removed, readonly, deprecated or patternProperties keys, no
list-valued type, an anyOf on which the nullable-collapse guard neither
fires nor raises, no collection-shaped child, and every ref already in
target form).  The original claim fails because a first run does not
always produce such a node: the deprecated rewrite reintroduces its own
trigger key (see the counterexample). -/
theorem c2_stable_fixpoint (env : Env) (kvs : KVs)
    (h : stableVal (.obj kvs) = true) :
    update_object env (.obj kvs) = some (.obj kvs) := by
  simp only [stableVal, Bool.and_eq_true] at h
  exact updateObjectF_stable env (jdepth (.obj kvs) + 1) kvs h.1 h.2
    (by simp [jdepth]; omega)

theorem c2_witness :
    stableVal (.obj [("description", .str "D"), ("readOnly", .bool true),
      ("type", .str "object")]) = true ∧
    update_object env0 (.obj [("description", .str "D"), ("readOnly", .bool true),
      ("type", .str "object")]) =
      some (.obj [("description", .str "D"), ("readOnly", .bool true),
        ("type", .str "object")]) :=
  ⟨by decide, c2_stable_fixpoint env0 [("description", .str "D"),
    ("readOnly", .bool true), ("type", .str "object")] (by decide)⟩

/-! ## Claim C7: the bounded retry policy of the External Reference Resolver -/

theorem fetchLoop_attempts (env : Env) (url : String) :
    ∀ (fuel rc : Nat) (d : JValue) (n : Nat),
      fetchLoop env url rc fuel = some (d, n) →
      n ≤ fuel ∧ (∀ i, i + 1 < n → env.fetch url (rc + i) = .osError true) := by
  intro fuel
  induction fuel with
  | zero =>
      intro rc d n h
      simp only [fetchLoop, Option.some_inj, Prod.mk.injEq] at h
      obtain ⟨h1, h2⟩ := h
      exact ⟨by omega, fun i hi => by omega⟩
  | succ fuel ih =>
      intro rc d n h
      rw [fetchLoop] at h
      split at h
      · exact absurd h (by simp)
      · simp only [Option.some_inj, Prod.mk.injEq] at h
        obtain ⟨h1, h2⟩ := h
        exact ⟨by omega, fun i hi => by omega⟩
      · rename_i connReset heq
        cases connReset with
        | false =>
            rw [if_neg (by simp)] at h
            simp only [Option.some_inj, Prod.mk.injEq] at h
            obtain ⟨h1, h2⟩ := h
            exact ⟨by omega, fun i hi => by omega⟩
        | true =>
            rw [if_pos rfl] at h
            split at h
            · exact absurd h (by simp)
            · rename_i j m heq2
              simp only [Option.some_inj, Prod.mk.injEq] at h
              obtain ⟨h1, h2⟩ := h
              obtain ⟨hm, hrec⟩ := ih (rc + 1) j m heq2
              refine ⟨by omega, ?_⟩
              intro i hi
              cases i with
              | zero => simpa using heq
              | succ i' =>
                  have hlt : i' + 1 < m := by omega
                  have hidx : rc + 1 + i' = rc + (i' + 1) := by omega
                  have := hrec i' hlt
                  rw [hidx] at this
                  exact this

theorem fetchLoop_exhaust (env : Env) (url : String) :
    ∀ (fuel rc : Nat),
      (∀ i, i < fuel → env.fetch url (rc + i) = .osError true) →
      fetchLoop env url rc fuel = some (.obj [], fuel) := by
  intro fuel
  induction fuel with
  | zero => intro rc _; rfl
  | succ fuel ih =>
      intro rc h
      have h0 : env.fetch url rc = .osError true := by
        simpa using h 0 (by omega)
      have hrec := ih (rc + 1) (fun i hi => by
        have hidx : rc + 1 + i = rc + (i + 1) := by omega
        rw [hidx]
        exact h (i + 1) (by omega))
      rw [fetchLoop]
      simp [h0, hrec]

/-- C7: cross-document resolution by network fetch attempts the fetch at
most retry_count_max (20) times; an attempt after attempt i exists only
when attempt i failed with ECONNRESET; when every attempt inside the bound
is a connection reset the loop exhausts with the empty document and
exactly 20 attempts; a first attempt failing with any other OSError ends
the loop after exactly 1 attempt with the empty document; and when the
resolved document does not yield the named definition, the reference is
classified non-link and rewritten by the file-extension and
container-path substitution rather than the shared identifier-reference
location. -/
theorem c7_fetch_retry_policy (env : Env) (url : String) :
    (∀ (d : JValue) (n : Nat), fetchLoop env url 0 retry_count_max = some (d, n) →
        n ≤ retry_count_max) ∧
    (∀ (d : JValue) (n : Nat), fetchLoop env url 0 retry_count_max = some (d, n) →
        ∀ i, i + 1 < n → env.fetch url i = .osError true) ∧
    ((∀ i, i < retry_count_max → env.fetch url i = .osError true) →
        fetchLoop env url 0 retry_count_max = some (.obj [], retry_count_max)) ∧
    (env.fetch url 0 = .osError false →
        fetchLoop env url 0 retry_count_max = some (.obj [], 1)) ∧
    (∀ (s : String) (c : Char) (cs : List Char) (g fname : String)
        (dk defsKvs : KVs) (n : Nat),
      s.data = c :: cs → c ≠ '#' →
      pyRefMatch s = some (g, g) → g ≠ "Redundancy" →
      pyFileSearch s = some fname → env.localFiles fname = none →
      fetchLoop env (takeBeforeHash s) 0 retry_count_max = some (.obj dk, n) →
      (lookupKey dk "definitions").getD (.obj []) = .obj defsKvs →
      lookupKey defsKvs (lastSlashComp s) = none →
      refRewriteValue env (.str s) =
        some (.str (replaceOnce s ".json#/definitions/" ".yaml#/components/schemas/"))) := by
  refine ⟨?_, ?_, ?_, ?_, ?_⟩
  · intro d n h
    exact (fetchLoop_attempts env url retry_count_max 0 d n h).1
  · intro d n h i hi
    simpa using (fetchLoop_attempts env url retry_count_max 0 d n h).2 i hi
  · intro h
    exact fetchLoop_exhaust env url retry_count_max 0 (fun i hi => by simpa using h i hi)
  · intro h
    rw [show retry_count_max = 19 + 1 from rfl, fetchLoop]
    simp [h]
  · intro s c cs g fname dk defsKvs n hd hc hm hg hfile hlocal hfetch hdefs hnone
    unfold refRewriteValue
    simp only [hd]
    rw [if_neg hc]
    simp [hm, hg, hfile, hlocal, hfetch, hdefs, hnone, finishExternal]

/-- A concrete environment whose every fetch is a connection reset. -/
def envReset : Env :=
  { env0 with fetch := fun _ _ => .osError true }

theorem c7_witness :
    fetchLoop envReset "http://example.org/Foo.json" 0 retry_count_max =
      some (.obj [], retry_count_max) :=
  (c7_fetch_retry_policy envReset "http://example.org/Foo.json").2.2.1
    (fun _ _ => rfl)

/-! ## The URI and action caches -/

/-- One entry of the URI cache: the per-path record built by
check_for_uri_info and update_uri_info_with_actions.  The verb flags hold
the raw JSON values stored by check_for_uri_info (the service-document
loop tests them by Python truthiness); the action flag is only ever a
Python bool in the source; typeName is none for the synthesized action
entries, which the source never gives a type key. -/
structure UriEntry where
  insertable : JValue
  updatable : JValue
  deletable : JValue
  action : Bool
  actionResponse : Option String
  typeName : Option String
  reference : String
  requestBody : String
  deriving Repr, DecidableEq

abbrev UriCache := List (String × UriEntry)

/-- One entry of the action cache built by check_for_actions, keyed inside
the cache by the action property name (which carries its leading hash
marker). -/
structure ActionEntry where
  reference : String
  actionResponse : Option String
  deriving Repr, DecidableEq

abbrev ActionCache := List (String × List (String × ActionEntry))

/-! Generic insertion-ordered dictionaries for the caches, with the same
Python semantics as the KVs operations. -/

def alookup {α : Type} : List (String × α) → String → Option α
  | [], _ => none
  | (k, v) :: rest, key => if k = key then some v else alookup rest key

def acontains {α : Type} : List (String × α) → String → Bool
  | [], _ => false
  | (k, _) :: rest, key => k == key || acontains rest key

def aset {α : Type} : List (String × α) → String → α → List (String × α)
  | [], key, v => [(key, v)]
  | (k, w) :: rest, key, v =>
      if k = key then (key, v) :: rest else (k, w) :: aset rest key v

/-- Python dict.update(other): assign every binding of other in order. -/
def aupdate {α : Type} (d other : List (String × α)) : List (String × α) :=
  other.foldl (fun acc p => aset acc p.1 p.2) d

theorem alookup_aset_self {α : Type} (l : List (String × α)) (k : String) (v : α) :
    alookup (aset l k v) k = some v := by
  induction l with
  | nil => simp [aset, alookup]
  | cons p rest ih =>
      obtain ⟨k', w⟩ := p
      by_cases h : k' = k <;> simp [aset, alookup, h, ih]

theorem alookup_aset_ne {α : Type} (l : List (String × α)) (k k' : String) (v : α)
    (h : k ≠ k') : alookup (aset l k v) k' = alookup l k' := by
  induction l with
  | nil => simp [aset, alookup, h]
  | cons p rest ih =>
      obtain ⟨k0, w⟩ := p
      by_cases h0 : k0 = k
      · subst h0; simp [aset, alookup, h]
      · simp [aset, alookup, h0, ih]

theorem acontains_aset {α : Type} (l : List (String × α)) (k k' : String) (v : α) :
    acontains (aset l k v) k' = (acontains l k' || (k == k')) := by
  induction l with
  | nil => simp [aset, acontains]
  | cons p rest ih =>
      obtain ⟨k0, w⟩ := p
      by_cases h0 : k0 = k
      · subst h0
        simp only [aset, if_pos rfl, acontains]
        by_cases h1 : k0 = k' <;> simp [h1]
      · simp only [aset, if_neg h0, acontains, ih]
        by_cases h1 : k0 = k' <;> simp [h1, Bool.or_assoc]

theorem acontains_of_alookup {α : Type} {l : List (String × α)} {k : String} {v : α}
    (h : alookup l k = some v) : acontains l k = true := by
  induction l with
  | nil => simp [alookup] at h
  | cons p rest ih =>
      obtain ⟨k0, w⟩ := p
      by_cases h0 : k0 = k
      · simp [acontains, h0]
      · simp only [alookup, if_neg h0] at h
        simp [acontains, h0, ih h]

theorem aset_mem {α : Type} {l : List (String × α)} {k : String} {v : α}
    {p : String × α} (h : p ∈ aset l k v) : p ∈ l ∨ p = (k, v) := by
  induction l with
  | nil => simpa [aset] using h
  | cons q rest ih =>
      obtain ⟨k0, w⟩ := q
      by_cases h0 : k0 = k
      · subst h0
        simp only [aset, if_pos rfl] at h
        rcases List.mem_cons.mp h with h1 | h1
        · exact Or.inr h1
        · exact Or.inl (List.mem_cons_of_mem _ h1)
      · simp only [aset, if_neg h0] at h
        rcases List.mem_cons.mp h with h1 | h1
        · exact Or.inl (h1 ▸ List.mem_cons_self _ _)
        · rcases ih h1 with h2 | h2
          · exact Or.inl (List.mem_cons_of_mem _ h2)
          · exact Or.inr h2

theorem aupdate_not_contains {α : Type} :
    ∀ (other d : List (String × α)) (k : String),
      acontains other k = false → alookup (aupdate d other) k = alookup d k
  | [], d, k, _ => rfl
  | (k0, v0) :: rest, d, k, h => by
      simp only [acontains, Bool.or_eq_false_iff] at h
      have h0 : k0 ≠ k := by
        intro hk
        simp [hk] at h
      have hr : acontains rest k = false := h.2
      show alookup (aupdate (aset d k0 v0) rest) k = alookup d k
      rw [aupdate_not_contains rest (aset d k0 v0) k hr, alookup_aset_ne _ _ _ _ h0]

theorem aupdate_contains {α : Type} :
    ∀ (other d : List (String × α)) (k : String),
      acontains other k = true →
      ∃ v, alookup (aupdate d other) k = some v ∧ (k, v) ∈ other
  | [], _, k, h => by simp [acontains] at h
  | (k0, v0) :: rest, d, k, h => by
      by_cases hr : acontains rest k = true
      · obtain ⟨v, hv, hm⟩ := aupdate_contains rest (aset d k0 v0) k hr
        exact ⟨v, hv, List.mem_cons_of_mem _ hm⟩
      · have hr' : acontains rest k = false := by simpa using hr
        have h0 : k0 = k := by
          simp only [acontains, Bool.or_eq_true] at h
          rcases h with h | h
          · exact by simpa using h
          · exact absurd h (by simp [hr'])
        subst h0
        refine ⟨v0, ?_, by simp⟩
        show alookup (aupdate (aset d k0 v0) rest) k0 = some v0
        rw [aupdate_not_contains rest (aset d k0 v0) k0 hr',
          alookup_aset_self]

/-! ## Pass 2: update_uri_info_with_actions (lines 336-359) -/

/-- The action-path entry synthesized for one (resource URI, action) match
(lines 346-357). -/
def actionEntryFor (e : UriEntry) (ae : ActionEntry) : UriEntry :=
  let action_reference := takeBeforeHash e.reference
  { reference := action_reference ++ ae.reference
    requestBody := action_reference ++ ae.reference
    actionResponse := ae.actionResponse.map (fun r => action_reference ++ r)
    insertable := .bool false
    updatable := .bool false
    deletable := .bool false
    action := true
    typeName := none }

/-- The separate action_uri_cache accumulated by the three nested loops of
lines 340-357: for every action-cache document, every URI-cache entry
whose reference contains slash plus that document name, and every action
of the document, one synthesized entry keyed by the resource path plus
"/Actions/" plus the action name without its first character. -/
def actionAdds (uriCache : UriCache) (actionCache : ActionCache) : UriCache :=
  actionCache.foldl (fun acc1 fa =>
    uriCache.foldl (fun acc2 ue =>
      if strContains ue.2.reference ("/" ++ fa.1) then
        fa.2.foldl (fun acc3 aa =>
          aset acc3 (ue.1 ++ "/Actions/" ++ (aa.1.drop 1))
            (actionEntryFor ue.2 aa.2)) acc2
      else acc2) acc1) []

/-- update_uri_info_with_actions (lines 336-359): pass 2 builds the
action-path entries and then merges them into the URI cache with
dict.update. -/
def update_uri_info_with_actions (uriCache : UriCache)
    (actionCache : ActionCache) : UriCache :=
  aupdate uriCache (actionAdds uriCache actionCache)

/-- The shape every synthesized action entry has. -/
def isActionShape (e : UriEntry) : Prop :=
  e.action = true ∧ e.insertable = .bool false ∧
    e.updatable = .bool false ∧ e.deletable = .bool false

theorem actionAdds_inner_shape (e0 : UriEntry) (uri : String) :
    ∀ (acts : List (String × ActionEntry)) (acc : UriCache),
      (∀ p ∈ acc, isActionShape p.2) →
      ∀ p ∈ acts.foldl (fun acc3 aa =>
          aset acc3 (uri ++ "/Actions/" ++ (aa.1.drop 1))
            (actionEntryFor e0 aa.2)) acc, isActionShape p.2
  | [], acc, hacc, p, hp => hacc p hp
  | aa :: rest, acc, hacc, p, hp => by
      refine actionAdds_inner_shape e0 uri rest _ ?_ p hp
      intro q hq
      rcases aset_mem hq with h1 | h1
      · exact hacc q h1
      · rw [h1]
        exact ⟨rfl, rfl, rfl, rfl⟩

theorem actionAdds_mid_shape (fa : String × List (String × ActionEntry)) :
    ∀ (us : UriCache) (acc : UriCache),
      (∀ p ∈ acc, isActionShape p.2) →
      ∀ p ∈ us.foldl (fun acc2 ue =>
          if strContains ue.2.reference ("/" ++ fa.1) then
            fa.2.foldl (fun acc3 aa =>
              aset acc3 (ue.1 ++ "/Actions/" ++ (aa.1.drop 1))
                (actionEntryFor ue.2 aa.2)) acc2
          else acc2) acc, isActionShape p.2
  | [], acc, hacc, p, hp => hacc p hp
  | ue :: rest, acc, hacc, p, hp => by
      refine actionAdds_mid_shape fa rest _ ?_ p hp
      intro q hq
      simp only at hq
      by_cases hm : strContains ue.2.reference ("/" ++ fa.1) = true
      · rw [if_pos hm] at hq
        exact actionAdds_inner_shape ue.2 ue.1 fa.2 acc hacc q hq
      · rw [if_neg hm] at hq
        exact hacc q hq

theorem actionAdds_shape (u : UriCache) :
    ∀ (a : ActionCache) (acc : UriCache),
      (∀ p ∈ acc, isActionShape p.2) →
      ∀ p ∈ a.foldl (fun acc1 fa =>
          u.foldl (fun acc2 ue =>
            if strContains ue.2.reference ("/" ++ fa.1) then
              fa.2.foldl (fun acc3 aa =>
                aset acc3 (ue.1 ++ "/Actions/" ++ (aa.1.drop 1))
                  (actionEntryFor ue.2 aa.2)) acc2
            else acc2) acc1) acc, isActionShape p.2
  | [], acc, hacc, p, hp => hacc p hp
  | fa :: rest, acc, hacc, p, hp => by
      refine actionAdds_shape u rest _ ?_ p hp
      intro q hq
      exact actionAdds_mid_shape fa u acc hacc q hq

theorem actionAdds_all_shape {u : UriCache} {a : ActionCache} :
    ∀ p ∈ actionAdds u a, isActionShape p.2 := by
  intro p hp
  exact actionAdds_shape u a [] (by intro q hq; simp at hq) p hp

theorem acontains_inner_mono (e0 : UriEntry) (uriX k : String) :
    ∀ (acts : List (String × ActionEntry)) (acc : UriCache),
      acontains acc k = true →
      acontains (acts.foldl (fun acc3 aa =>
          aset acc3 (uriX ++ "/Actions/" ++ (aa.1.drop 1))
            (actionEntryFor e0 aa.2)) acc) k = true
  | [], _, h => h
  | aa :: rest, acc, h => by
      simp only [List.foldl_cons]
      refine acontains_inner_mono e0 uriX k rest _ ?_
      show acontains (aset acc (uriX ++ "/Actions/" ++ (aa.1.drop 1))
        (actionEntryFor e0 aa.2)) k = true
      rw [acontains_aset]
      simp [h]

theorem acontains_mid_mono (fname : String)
    (acts : List (String × ActionEntry)) (k : String) :
    ∀ (us : UriCache) (acc : UriCache),
      acontains acc k = true →
      acontains (us.foldl (fun acc2 ue =>
          if strContains ue.2.reference ("/" ++ fname) then
            acts.foldl (fun acc3 aa =>
              aset acc3 (ue.1 ++ "/Actions/" ++ (aa.1.drop 1))
                (actionEntryFor ue.2 aa.2)) acc2
          else acc2) acc) k = true
  | [], _, h => h
  | ue :: rest, acc, h => by
      simp only [List.foldl_cons]
      refine acontains_mid_mono fname acts k rest _ ?_
      show acontains (if strContains ue.2.reference ("/" ++ fname) then
          acts.foldl (fun acc3 aa =>
            aset acc3 (ue.1 ++ "/Actions/" ++ (aa.1.drop 1))
              (actionEntryFor ue.2 aa.2)) acc
        else acc) k = true
      by_cases hc : strContains ue.2.reference ("/" ++ fname) = true
      · rw [if_pos hc]
        exact acontains_inner_mono ue.2 ue.1 k acts acc h
      · rw [if_neg hc]
        exact h

theorem acontains_outer_mono (u : UriCache) (k : String) :
    ∀ (a : ActionCache) (acc : UriCache),
      acontains acc k = true →
      acontains (a.foldl (fun acc1 fa =>
          u.foldl (fun acc2 ue =>
            if strContains ue.2.reference ("/" ++ fa.1) then
              fa.2.foldl (fun acc3 aa =>
                aset acc3 (ue.1 ++ "/Actions/" ++ (aa.1.drop 1))
                  (actionEntryFor ue.2 aa.2)) acc2
            else acc2) acc1) acc) k = true
  | [], _, h => h
  | fa :: resta, acc, h => by
      simp only [List.foldl_cons]
      refine acontains_outer_mono u k resta _ ?_
      show acontains (u.foldl (fun acc2 ue =>
          if strContains ue.2.reference ("/" ++ fa.1) then
            fa.2.foldl (fun acc3 aa =>
              aset acc3 (ue.1 ++ "/Actions/" ++ (aa.1.drop 1))
                (actionEntryFor ue.2 aa.2)) acc2
          else acc2) acc) k = true
      exact acontains_mid_mono fa.1 fa.2 k u acc h

theorem actionAdds_trigger_inner (e0 : UriEntry) (uri0 aname : String)
    (ae : ActionEntry) :
    ∀ (acts : List (String × ActionEntry)) (acc : UriCache),
      (aname, ae) ∈ acts →
      acontains (acts.foldl (fun acc3 aa =>
          aset acc3 (uri0 ++ "/Actions/" ++ (aa.1.drop 1))
            (actionEntryFor e0 aa.2)) acc)
        (uri0 ++ "/Actions/" ++ aname.drop 1) = true
  | [], _, h => by simp at h
  | aa :: rest, acc, h => by
      simp only [List.foldl_cons]
      rcases List.mem_cons.mp h with h1 | h1
      · refine acontains_inner_mono e0 uri0 _ rest _ ?_
        show acontains (aset acc (uri0 ++ "/Actions/" ++ (aa.1.drop 1))
          (actionEntryFor e0 aa.2)) (uri0 ++ "/Actions/" ++ aname.drop 1) = true
        rw [acontains_aset]
        have ha : aa.1 = aname := by rw [← h1]
        simp [ha]
      · exact actionAdds_trigger_inner e0 uri0 aname ae rest _ h1

theorem actionAdds_trigger_mid (fname : String)
    (acts : List (String × ActionEntry)) (uri0 aname : String)
    (e0 : UriEntry) (ae : ActionEntry)
    (hact : (aname, ae) ∈ acts)
    (hm : strContains e0.reference ("/" ++ fname) = true) :
    ∀ (us : UriCache) (acc : UriCache),
      (uri0, e0) ∈ us →
      acontains (us.foldl (fun acc2 ue =>
          if strContains ue.2.reference ("/" ++ fname) then
            acts.foldl (fun acc3 aa =>
              aset acc3 (ue.1 ++ "/Actions/" ++ (aa.1.drop 1))
                (actionEntryFor ue.2 aa.2)) acc2
          else acc2) acc)
        (uri0 ++ "/Actions/" ++ aname.drop 1) = true
  | [], _, h => by simp at h
  | ue :: rest, acc, h => by
      simp only [List.foldl_cons]
      rcases List.mem_cons.mp h with h1 | h1
      · refine acontains_mid_mono fname acts _ rest _ ?_
        show acontains (if strContains ue.2.reference ("/" ++ fname) then
            acts.foldl (fun acc3 aa =>
              aset acc3 (ue.1 ++ "/Actions/" ++ (aa.1.drop 1))
                (actionEntryFor ue.2 aa.2)) acc
          else acc) (uri0 ++ "/Actions/" ++ aname.drop 1) = true
        have hu1 : ue.1 = uri0 := by rw [← h1]
        have hu2 : ue.2 = e0 := by rw [← h1]
        rw [hu1, hu2, if_pos hm]
        exact actionAdds_trigger_inner e0 uri0 aname ae acts acc hact
      · exact actionAdds_trigger_mid fname acts uri0 aname e0 ae hact hm rest _ h1

theorem actionAdds_trigger (u : UriCache) (fname : String)
    (acts : List (String × ActionEntry)) (uri0 aname : String)
    (e0 : UriEntry) (ae : ActionEntry)
    (hact : (aname, ae) ∈ acts)
    (hu : (uri0, e0) ∈ u)
    (hm : strContains e0.reference ("/" ++ fname) = true) :
    ∀ (a : ActionCache) (acc : UriCache),
      (fname, acts) ∈ a →
      acontains (a.foldl (fun acc1 fa =>
          u.foldl (fun acc2 ue =>
            if strContains ue.2.reference ("/" ++ fa.1) then
              fa.2.foldl (fun acc3 aa =>
                aset acc3 (ue.1 ++ "/Actions/" ++ (aa.1.drop 1))
                  (actionEntryFor ue.2 aa.2)) acc2
            else acc2) acc1) acc)
        (uri0 ++ "/Actions/" ++ aname.drop 1) = true
  | [], _, h => by simp at h
  | fa :: resta, acc, h => by
      simp only [List.foldl_cons]
      rcases List.mem_cons.mp h with h1 | h1
      · refine acontains_outer_mono u _ resta _ ?_
        show acontains (u.foldl (fun acc2 ue =>
            if strContains ue.2.reference ("/" ++ fa.1) then
              fa.2.foldl (fun acc3 aa =>
                aset acc3 (ue.1 ++ "/Actions/" ++ (aa.1.drop 1))
                  (actionEntryFor ue.2 aa.2)) acc2
            else acc2) acc) (uri0 ++ "/Actions/" ++ aname.drop 1) = true
        have hf1 : fa.1 = fname := by rw [← h1]
        have hf2 : fa.2 = acts := by rw [← h1]
        rw [hf1, hf2]
        exact actionAdds_trigger_mid fname acts uri0 aname e0 ae hact hm u acc hu
      · exact actionAdds_trigger u fname acts uri0 aname e0 ae hact hu hm resta _ h1

theorem actionAdds_contains {u : UriCache} {a : ActionCache} {fname : String}
    {acts : List (String × ActionEntry)} {aname : String} {ae : ActionEntry}
    {uri0 : String} {e0 : UriEntry}
    (ha : (fname, acts) ∈ a) (hact : (aname, ae) ∈ acts)
    (hu : (uri0, e0) ∈ u)
    (hm : strContains e0.reference ("/" ++ fname) = true) :
    acontains (actionAdds u a) (uri0 ++ "/Actions/" ++ aname.drop 1) = true :=
  actionAdds_trigger u fname acts uri0 aname e0 ae hact hu hm a [] ha

/-! ## Claims C4 and C8 -/

/-- A concrete resource entry used by the witnesses. -/
def uEntryFoo : UriEntry :=
  { insertable := .bool false, updatable := .bool true, deletable := .bool false,
    action := false, actionResponse := none, typeName := some "Foo",
    reference := "http://redfish.dmtf.org/schemas/v1/Foo.yaml#/components/schemas/Foo",
    requestBody := "http://redfish.dmtf.org/schemas/v1/Foo.yaml#/components/schemas/Foo" }

/-- A concrete recorded action, keyed in the cache as "#Foo.Reset". -/
def aeReset : ActionEntry :=
  { reference := "#/components/schemas/FooResetRequestBody", actionResponse := none }

/-- C4 counterexample: with the resource path bound to a reference naming
Foo.yaml and the action recorded in the action cache under Foo.yaml with
name "#Foo.Reset", the claim asserts an entry at resource path +
"/Actions/" + recorded name; after pass 2 no such entry exists (the code
strips the first character of the recorded name, creating
".../Actions/Foo.Reset" instead). -/
theorem c4_counterexample :
    strContains uEntryFoo.reference ("/" ++ "Foo.yaml") = true ∧
    alookup (update_uri_info_with_actions [("/redfish/v1/Foo", uEntryFoo)]
        [("Foo.yaml", [("#Foo.Reset", aeReset)])])
      ("/redfish/v1/Foo" ++ "/Actions/" ++ "#Foo.Reset") = none ∧
    alookup (update_uri_info_with_actions [("/redfish/v1/Foo", uEntryFoo)]
        [("Foo.yaml", [("#Foo.Reset", aeReset)])])
      ("/redfish/v1/Foo" ++ "/Actions/" ++ "Foo.Reset") =
      some (actionEntryFor uEntryFoo aeReset) := by
  refine ⟨by decide, by decide, by decide⟩

/-- C4 amended: after pass 2, for every resource path whose reference
contains slash plus the action's originating document name, and every
action recorded in the action cache under that document, the URI cache
contains an entry at the path resource path + "/Actions/" + the recorded
action name MINUS ITS FIRST CHARACTER (the code strips the leading hash
marker), with the action flag true and the insertable, updatable and
deletable flags all false. -/
theorem c4_action_merge (u : UriCache) (a : ActionCache) (fname : String)
    (acts : List (String × ActionEntry)) (aname : String) (ae : ActionEntry)
    (uri : String) (e : UriEntry)
    (ha : (fname, acts) ∈ a) (hact : (aname, ae) ∈ acts)
    (hu : (uri, e) ∈ u)
    (hm : strContains e.reference ("/" ++ fname) = true) :
    ∃ e', alookup (update_uri_info_with_actions u a)
        (uri ++ "/Actions/" ++ aname.drop 1) = some e' ∧
      e'.action = true ∧ e'.insertable = .bool false ∧
      e'.updatable = .bool false ∧ e'.deletable = .bool false := by
  have hc : acontains (actionAdds u a) (uri ++ "/Actions/" ++ aname.drop 1) = true :=
    actionAdds_contains ha hact hu hm
  obtain ⟨v, hv, hmem⟩ := aupdate_contains (actionAdds u a) u _ hc
  obtain ⟨h1, h2, h3, h4⟩ := actionAdds_all_shape _ hmem
  exact ⟨v, hv, h1, h2, h3, h4⟩

theorem c4_witness :
    ∃ e', alookup (update_uri_info_with_actions [("/redfish/v1/Foo", uEntryFoo)]
        [("Foo.yaml", [("#Foo.Reset", aeReset)])])
        ("/redfish/v1/Foo" ++ "/Actions/" ++ "#Foo.Reset".drop 1) = some e' ∧
      e'.action = true ∧ e'.insertable = .bool false ∧
      e'.updatable = .bool false ∧ e'.deletable = .bool false :=
  c4_action_merge [("/redfish/v1/Foo", uEntryFoo)]
    [("Foo.yaml", [("#Foo.Reset", aeReset)])] "Foo.yaml"
    [("#Foo.Reset", aeReset)] "#Foo.Reset" aeReset "/redfish/v1/Foo" uEntryFoo
    (by simp) (by simp) (by simp) (by decide)

/-- A concrete resource entry whose path collides with a synthesized
action path. -/
def eCollide : UriEntry :=
  { insertable := .bool false, updatable := .bool true, deletable := .bool false,
    action := false, actionResponse := none, typeName := some "Bar",
    reference := "http://redfish.dmtf.org/schemas/v1/Bar.yaml#/components/schemas/Bar",
    requestBody := "http://redfish.dmtf.org/schemas/v1/Bar.yaml#/components/schemas/Bar" }

/-- C8 counterexample: when the URI cache already holds a resource entry
at a path equal to a synthesized action path, pass 2 overwrites it via
dict.update, so the entry bound to that pre-existing path is not identical
after pass 2. -/
theorem c8_counterexample :
    alookup [("/redfish/v1/Foo", uEntryFoo),
        ("/redfish/v1/Foo/Actions/Foo.Reset", eCollide)]
      "/redfish/v1/Foo/Actions/Foo.Reset" = some eCollide ∧
    alookup (update_uri_info_with_actions
        [("/redfish/v1/Foo", uEntryFoo),
          ("/redfish/v1/Foo/Actions/Foo.Reset", eCollide)]
        [("Foo.yaml", [("#Foo.Reset", aeReset)])])
      "/redfish/v1/Foo/Actions/Foo.Reset" ≠ some eCollide := by
  refine ⟨by decide, by decide⟩

/-- C8 amended: pass 2 only adds action-path entries, and every
pre-existing entry whose own path is not a synthesized action path
(resource path + "/Actions/" + action local name for a triggering pair)
is bound to an identical entry afterwards, even when other paths of the
cache do collide; a pre-existing path that equals a synthesized action
path is overwritten by dict.update (see the counterexample). -/
theorem c8_pass2_preserves (u : UriCache) (a : ActionCache)
    (p : String) (e : UriEntry)
    (hp : alookup u p = some e)
    (hna : acontains (actionAdds u a) p = false) :
    alookup (update_uri_info_with_actions u a) p = some e := by
  rw [update_uri_info_with_actions, aupdate_not_contains _ _ _ hna, hp]

theorem c8_witness :
    alookup (update_uri_info_with_actions
        [("/redfish/v1/Foo", uEntryFoo),
         ("/redfish/v1/Foo/Actions/Foo.Reset", eCollide)]
        [("Foo.yaml", [("#Foo.Reset", aeReset)])]) "/redfish/v1/Foo" =
      some uEntryFoo :=
  c8_pass2_preserves
    [("/redfish/v1/Foo", uEntryFoo),
     ("/redfish/v1/Foo/Actions/Foo.Reset", eCollide)]
    [("Foo.yaml", [("#Foo.Reset", aeReset)])]
    "/redfish/v1/Foo" uEntryFoo (by decide) (by decide)

/-! ## Service document synthesis (lines 136-150, 543-680) -/

def HEAD_RESPONSES : List Nat := [204]
def GET_RESPONSES : List Nat := [200]
def PATCH_RESPONSES : List Nat := [200, 202, 204]
def PUT_RESPONSES : List Nat := [200, 202, 204]
def CREATE_RESPONSES : List Nat := [201, 202, 204]
def ACTION_RESPONSES : List Nat := [200, 202, 204]
def DELETE_RESPONSES : List Nat := [200, 202, 204]

/-- One path parameter built by generate_parameters (lines 667-678): the
description is added only when the Id-suffix search succeeds; otherwise an
error is logged and the parameter is emitted without a description. -/
def parameterFor (param : String) : JValue :=
  let param_name := stripBraces param
  let base : KVs := [("name", .str param_name), ("in", .str "path"),
    ("required", .bool true), ("schema", .obj [("type", .str "string")])]
  match pyIdSearch param_name with
  | some g => .obj (base ++ [("description",
      .str ("The value of the Id property of the " ++ g ++ " resource"))])
  | none => .obj base

/-- generate_parameters (lines 649-680): None when the URI holds no brace
tokens, otherwise the parameter array. -/
def generate_parameters (uri : String) : Option JValue :=
  let uri_parameters := findParams uri
  if uri_parameters.isEmpty then none
  else some (.arr (uri_parameters.map parameterFor))

/-- The request body object of generate_request_body (lines 574-587),
given the cache entry. -/
def requestBodyFor (e : UriEntry) : JValue :=
  .obj [("required", .bool true),
    ("content", .obj [("application/json", .obj [("schema",
      .obj [("$ref", .str e.requestBody)])])])]

/-- generate_request_body (lines 574-587); the cache access raises on a
missing URI. -/
def generate_request_body (cache : UriCache) (uri : String) : Option JValue :=
  (alookup cache uri).map requestBodyFor

/-- The response object of generate_response (lines 589-647), given the
cache entry.  The 202 branch guard (content_task is not None) is always
true, since content_task is always a dict. -/
def responseFor (env : Env) (uri : String) (e : UriEntry)
    (http_status : Nat) : JValue :=
  let content_resource : JValue :=
    .obj [("application/json", .obj [("schema", .obj [("$ref", .str e.reference)])])]
  let content_created : JValue :=
    .obj [("application/json", .obj [("schema", .obj [("$ref", .str e.requestBody)])])]
  let content_task : JValue :=
    .obj [("application/json", .obj [("schema", .obj [("$ref", .str env.task_ref)])])]
  let content_error : JValue :=
    .obj [("application/json", .obj [("schema",
      .obj [("$ref", .str "#/components/schemas/RedfishError")])])]
  let content_action_response : JValue :=
    .obj [("application/json", .obj [("schema", .obj [("$ref",
      match e.actionResponse with
      | some r => .str r
      | none => .null)])])]
  if http_status == 200 then
    if e.action = false then
      .obj [("description", .str ("The response contains a representation of the "
          ++ lastSlashComp e.reference ++ " resource")),
        ("content", content_resource)]
    else
      if e.actionResponse.isSome then
        .obj [("description", .str ("The response contains the results of the "
            ++ lastDotComp uri ++ " action")),
          ("content", content_action_response)]
      else
        .obj [("description", .str ("The response contains the results of the "
            ++ lastDotComp uri ++ " action")),
          ("content", content_error)]
  else if http_status == 201 then
    .obj [("description", .str ("A resource of type "
        ++ lastSlashComp e.requestBody ++ " has been created")),
      ("content", content_created)]
  else if http_status == 202 then
    .obj [("description", .str "Accepted; a Task has been generated"),
      ("content", content_task)]
  else if http_status == 204 then
    .obj [("description", .str "Success, but no response data")]
  else if http_status == 301 then
    .obj [("description", .str "Resource moved"), ("content", content_resource)]
  else if http_status == 302 then
    .obj [("description", .str "Resource found"), ("content", content_resource)]
  else if http_status == 304 then
    .obj [("description", .str "Resource not modified")]
  else
    .obj [("description", .str "Error condition"), ("content", content_error)]

/-- generate_response (lines 589-647); the cache access raises on a
missing URI. -/
def generate_response (env : Env) (cache : UriCache) (uri : String)
    (http_status : Nat) : Option JValue :=
  (alookup cache uri).map (fun e => responseFor env uri e http_status)

/-- The operation object of generate_operation (lines 543-572), given the
cache entry.  The requestBody-key presence test of line 563 is always true
for cache entries, every writer of the cache setting the key. -/
def operationFor (env : Env) (uri : String) (e : UriEntry)
    (responses : List Nat) (add_request_body : Bool) : JValue :=
  let params : KVs :=
    match generate_parameters uri with
    | some ps => [("parameters", ps)]
    | none => []
  let body : KVs :=
    if add_request_body then [("requestBody", requestBodyFor e)] else []
  .obj (params ++ body ++ [("responses", .obj
    (responses.map (fun r => (toString r, responseFor env uri e r)) ++
      [("default", responseFor env uri e 500)]))])

/-- generate_operation (lines 543-572). -/
def generate_operation (env : Env) (cache : UriCache) (uri : String)
    (responses : List Nat) (add_request_body : Bool) : Option JValue :=
  (alookup cache uri).map (fun e => operationFor env uri e responses add_request_body)

/-- The paths-object entry for one URI-cache iteration of the service
document loop (lines 138-150): GET always, then POST, PATCH plus PUT, and
DELETE gated by the truthiness of the stored verb flags; a single POST for
an action entry. -/
def pathItemFor (env : Env) (cache : UriCache) (uri : String) (e : UriEntry) :
    Option KVs :=
  if e.action = false then
    (generate_operation env cache uri GET_RESPONSES false).bind (fun getOp =>
    (if pyTruthy e.insertable then
        (generate_operation env cache uri CREATE_RESPONSES true).map
          (fun op => [("post", op)])
      else some []).bind (fun postPart =>
    (if pyTruthy e.updatable then
        (generate_operation env cache uri PATCH_RESPONSES true).bind (fun patchOp =>
          (generate_operation env cache uri PUT_RESPONSES true).map (fun putOp =>
            [("patch", patchOp), ("put", putOp)]))
      else some []).bind (fun updPart =>
    (if pyTruthy e.deletable then
        (generate_operation env cache uri DELETE_RESPONSES false).map
          (fun op => [("delete", op)])
      else some []).map (fun delPart =>
    [("get", getOp)] ++ postPart ++ updPart ++ delPart))))
  else
    (generate_operation env cache uri ACTION_RESPONSES true).map
      (fun op => [("post", op)])

/-- The whole paths object of the service document (lines 136-150). -/
def buildPaths (env : Env) (cache : UriCache) : Option (List (String × JValue)) :=
  cache.foldlM (fun acc ue =>
    (pathItemFor env cache ue.1 ue.2).map (fun item =>
      aset acc ue.1 (.obj item))) []

/-! ## Claim C5 -/

/-- C5: for a non-action URI-cache entry the paths object holds a GET
operation unconditionally, a POST exactly when the insertable flag is
truthy, PATCH and PUT exactly when the updatable flag is truthy, and
DELETE exactly when the deletable flag is truthy; for an action entry it
holds exactly one operation, a POST. -/
theorem c5_verb_gating (env : Env) (cache : UriCache) (uri : String) (e : UriEntry)
    (h : alookup cache uri = some e) :
    (pathItemFor env cache uri e).isSome = true ∧
    (e.action = false →
      containsKey ((pathItemFor env cache uri e).getD []) "get" = true ∧
      containsKey ((pathItemFor env cache uri e).getD []) "post" = pyTruthy e.insertable ∧
      containsKey ((pathItemFor env cache uri e).getD []) "patch" = pyTruthy e.updatable ∧
      containsKey ((pathItemFor env cache uri e).getD []) "put" = pyTruthy e.updatable ∧
      containsKey ((pathItemFor env cache uri e).getD []) "delete" = pyTruthy e.deletable) ∧
    (e.action = true → ∃ op, (pathItemFor env cache uri e).getD [] = [("post", op)]) := by
  cases ha : e.action with
  | true =>
      have hpi : pathItemFor env cache uri e =
          some [("post", operationFor env uri e ACTION_RESPONSES true)] := by
        simp [pathItemFor, generate_operation, h, ha]
      exact ⟨by simp [hpi], fun hfalse => Bool.noConfusion hfalse,
        fun _ => ⟨operationFor env uri e ACTION_RESPONSES true, by simp [hpi]⟩⟩
  | false =>
      have hpi : pathItemFor env cache uri e =
          some ([("get", operationFor env uri e GET_RESPONSES false)] ++
            (if pyTruthy e.insertable then
              [("post", operationFor env uri e CREATE_RESPONSES true)] else []) ++
            (if pyTruthy e.updatable then
              [("patch", operationFor env uri e PATCH_RESPONSES true),
               ("put", operationFor env uri e PUT_RESPONSES true)] else []) ++
            (if pyTruthy e.deletable then
              [("delete", operationFor env uri e DELETE_RESPONSES false)] else [])) := by
        simp only [pathItemFor, generate_operation, h, ha, Option.map_some',
          Option.some_bind]
        cases pyTruthy e.insertable <;> cases pyTruthy e.updatable <;>
          cases pyTruthy e.deletable <;> simp
      refine ⟨by simp [hpi], fun _ => ?_, fun htrue => Bool.noConfusion htrue⟩
      rw [hpi]
      cases hi : pyTruthy e.insertable <;> cases hu : pyTruthy e.updatable <;>
        cases hd : pyTruthy e.deletable <;>
          simp [containsKey]

theorem c5_witness :
    (pathItemFor env0 [("/redfish/v1/Foo", uEntryFoo)]
      "/redfish/v1/Foo" uEntryFoo).isSome = true ∧
    (uEntryFoo.action = false →
      containsKey ((pathItemFor env0 [("/redfish/v1/Foo", uEntryFoo)]
        "/redfish/v1/Foo" uEntryFoo).getD []) "get" = true ∧
      containsKey ((pathItemFor env0 [("/redfish/v1/Foo", uEntryFoo)]
        "/redfish/v1/Foo" uEntryFoo).getD []) "post" = pyTruthy uEntryFoo.insertable ∧
      containsKey ((pathItemFor env0 [("/redfish/v1/Foo", uEntryFoo)]
        "/redfish/v1/Foo" uEntryFoo).getD []) "patch" = pyTruthy uEntryFoo.updatable ∧
      containsKey ((pathItemFor env0 [("/redfish/v1/Foo", uEntryFoo)]
        "/redfish/v1/Foo" uEntryFoo).getD []) "put" = pyTruthy uEntryFoo.updatable ∧
      containsKey ((pathItemFor env0 [("/redfish/v1/Foo", uEntryFoo)]
        "/redfish/v1/Foo" uEntryFoo).getD []) "delete" = pyTruthy uEntryFoo.deletable) ∧
    (uEntryFoo.action = true → ∃ op, (pathItemFor env0 [("/redfish/v1/Foo", uEntryFoo)]
      "/redfish/v1/Foo" uEntryFoo).getD [] = [("post", op)]) :=
  c5_verb_gating env0 [("/redfish/v1/Foo", uEntryFoo)] "/redfish/v1/Foo" uEntryFoo
    (by decide)

/-! ## Claim C6 -/

/-- The schema reference carried by a response body. -/
def schemaRefOf (resp : JValue) : Option JValue :=
  match resp with
  | .obj kvs =>
      match lookupKey kvs "content" with
      | some (.obj c) =>
          match lookupKey c "application/json" with
          | some (.obj aj) =>
              match lookupKey aj "schema" with
              | some (.obj sch) => lookupKey sch "$ref"
              | _ => none
          | _ => none
      | _ => none
  | _ => none

/-- C6: the 200 response generated by generate_response carries the
entry's canonical resource reference for a non-action entry; for an action
entry it carries the declared distinct action response when present and
the generic RedfishError schema reference otherwise. -/
theorem c6_response_200 (env : Env) (cache : UriCache) (uri : String) (e : UriEntry)
    (h : alookup cache uri = some e) :
    generate_response env cache uri 200 = some (responseFor env uri e 200) ∧
    (e.action = false →
      schemaRefOf (responseFor env uri e 200) = some (.str e.reference)) ∧
    (e.action = true → ∀ r, e.actionResponse = some r →
      schemaRefOf (responseFor env uri e 200) = some (.str r)) ∧
    (e.action = true → e.actionResponse = none →
      schemaRefOf (responseFor env uri e 200) =
        some (.str "#/components/schemas/RedfishError")) := by
  refine ⟨by simp [generate_response, h], ?_, ?_, ?_⟩
  · intro ha
    simp [responseFor, ha, schemaRefOf, lookupKey]
  · intro ha r hr
    simp [responseFor, ha, hr, schemaRefOf, lookupKey]
  · intro ha hr
    simp [responseFor, ha, hr, schemaRefOf, lookupKey]

theorem c6_witness :
    generate_response env0 [("/redfish/v1/Foo", uEntryFoo)] "/redfish/v1/Foo" 200 =
      some (responseFor env0 "/redfish/v1/Foo" uEntryFoo 200) ∧
    schemaRefOf (responseFor env0 "/redfish/v1/Foo" uEntryFoo 200) =
      some (.str uEntryFoo.reference) :=
  ⟨(c6_response_200 env0 [("/redfish/v1/Foo", uEntryFoo)] "/redfish/v1/Foo" uEntryFoo
      (by decide)).1,
   (c6_response_200 env0 [("/redfish/v1/Foo", uEntryFoo)] "/redfish/v1/Foo" uEntryFoo
      (by decide)).2.1 (by decide)⟩

/-! ## check_for_uri_info (lines 212-273) and claim C9 -/

/-- The Members items reference chain of lines 254-256: last anyOf branch,
properties, Members, items, ref; every structural mismatch raises. -/
def membersItemsRef (dkvs : KVs) : Option String :=
  match lookupKey dkvs "anyOf" with
  | some (.arr items) =>
      match items.getLast? with
      | some (.obj bk) =>
          match lookupKey bk "properties" with
          | some (.obj props) =>
              match lookupKey props "Members" with
              | some (.obj mem) =>
                  match lookupKey mem "items" with
                  | some (.obj it) =>
                      match lookupKey it "$ref" with
                      | some (.str s) => some s
                      | _ => none
                  | _ => none
              | _ => none
          | _ => none
      | _ => none
  | _ => none

/-- The singular-resource reference of line 258: last anyOf branch, ref;
every structural mismatch raises. -/
def lastAnyOfRef (dkvs : KVs) : Option String :=
  match lookupKey dkvs "anyOf" with
  | some (.arr items) =>
      match items.getLast? with
      | some (.obj bk) =>
          match lookupKey bk "$ref" with
          | some (.str s) => some s
          | _ => none
      | _ => none
  | _ => none

/-- The cache registrations of lines 264-273: one entry per route binding,
all carrying the same record.  Route bindings that are not strings are not
modeled as dictionary keys and are treated as failures. -/
def addUriEntries (entry : UriEntry) : List JValue → UriCache → Option UriCache
  | [], acc => some acc
  | .str u :: rest, acc => addUriEntries entry rest (aset acc u entry)
  | _ :: _, _ => none

/-- One iteration of the definitions loop of check_for_uri_info
(lines 221-273).  A definition without a route-bindings key is skipped;
verb flags default to False when missing (with a logged error); the
reference is the fixed swordfish location for the DriveCollection
collection, the directory of the Members items reference for every other
collection, the last anyOf branch reference for a singular resource, and
the string UNKNOWN when no anyOf is present (logged error, processing
continues). -/
def processUriDef (defName : String) (definition : JValue) (cache : UriCache) :
    Option UriCache :=
  match pyContains definition "uris" with
  | none => none
  | some false => some cache
  | some true =>
      match definition with
      | .obj dkvs =>
          let insertable := (lookupKey dkvs "insertable").getD (.bool false)
          let updatable := (lookupKey dkvs "updatable").getD (.bool false)
          let deletable := (lookupKey dkvs "deletable").getD (.bool false)
          let refs : Option (String × String) :=
            if containsKey dkvs "anyOf" then
              if is_collection definition then
                match membersItemsRef dkvs with
                | none => none
                | some mref =>
                    let dir : Option String :=
                      if defName == "DriveCollection" then
                        some "http://redfish.dmtf.org/schemas/swordfish/v1"
                      else pyDirMatch mref
                    match dir with
                    | none => none
                    | some d => some
                        (d ++ "/" ++ defName ++ ".yaml#/components/schemas/" ++ defName,
                         replaceOnce mref ".json#/definitions/" ".yaml#/components/schemas/")
              else
                match lastAnyOfRef dkvs with
                | none => none
                | some r =>
                    let r' := replaceOnce r ".json#/definitions/" ".yaml#/components/schemas/"
                    some (r', r')
            else some ("UNKNOWN", "UNKNOWN")
          match refs with
          | none => none
          | some rr =>
              match lookupKey dkvs "uris" with
              | some (.arr uris) =>
                  addUriEntries
                    { insertable := insertable, updatable := updatable,
                      deletable := deletable, action := false,
                      actionResponse := none, typeName := some defName,
                      reference := rr.1, requestBody := rr.2 } uris cache
              | _ => none
      | _ => none

/-- check_for_uri_info (lines 212-273): fold the definitions loop over the
document's definitions block. -/
def check_for_uri_info (doc : JValue) (cache : UriCache) : Option UriCache :=
  match doc with
  | .obj kvs =>
      match lookupKey kvs "definitions" with
      | some (.obj defs) =>
          defs.foldlM (fun acc p => processUriDef p.1 p.2 acc) cache
      | some _ => none
      | none => some cache
  | _ => some cache

theorem addUriEntries_spec (entry : UriEntry) :
    ∀ (uris : List JValue) (acc : UriCache),
      (∀ u ∈ uris, ∃ s : String, u = .str s) →
      ∃ acc', addUriEntries entry uris acc = some acc' ∧
        (∀ s : String, JValue.str s ∈ uris → alookup acc' s = some entry) ∧
        (∀ k, alookup acc' k = some entry ∨ alookup acc' k = alookup acc k)
  | [], acc, _ => ⟨acc, rfl, by simp, fun k => Or.inr rfl⟩
  | u :: rest, acc, hstr => by
      obtain ⟨s, rfl⟩ := hstr u (by simp)
      obtain ⟨acc', hrun, hcov, hdisj⟩ :=
        addUriEntries_spec entry rest (aset acc s entry)
          (fun v hv => hstr v (by simp [hv]))
      refine ⟨acc', hrun, ?_, ?_⟩
      · intro t ht
        rcases List.mem_cons.mp ht with h1 | h1
        · have hts : t = s := by
            have := h1
            simp at this
            exact this
          subst hts
          rcases hdisj t with h2 | h2
          · exact h2
          · rw [h2, alookup_aset_self]
        · exact hcov t h1
      · intro k
        rcases hdisj k with h2 | h2
        · exact Or.inl h2
        · by_cases hk : s = k
          · subst hk
            rw [h2, alookup_aset_self]
            exact Or.inl rfl
          · rw [h2, alookup_aset_ne _ _ _ _ hk]
            exact Or.inr rfl

/-- C9: for a route-bound definition named DriveCollection that passes the
structural collection test (and whose Members items reference chain is
present, so the registration completes), every declared route binding is
registered with the canonical reference fixed to the swordfish
DriveCollection location, ignoring the directory of the Members items
reference used for every other collection name. -/
theorem c9_drivecollection_reference (dkvs : KVs) (cache : UriCache)
    (mref : String) (uris : List JValue)
    (huris : containsKey dkvs "uris" = true)
    (hanyof : containsKey dkvs "anyOf" = true)
    (hcoll : is_collection (.obj dkvs) = true)
    (hmref : membersItemsRef dkvs = some mref)
    (hlist : lookupKey dkvs "uris" = some (.arr uris))
    (hstr : ∀ u ∈ uris, ∃ s : String, u = .str s) :
    ∃ cache', processUriDef "DriveCollection" (.obj dkvs) cache = some cache' ∧
      ∀ s : String, JValue.str s ∈ uris → ∃ e, alookup cache' s = some e ∧
        e.reference =
          "http://redfish.dmtf.org/schemas/swordfish/v1/DriveCollection.yaml#/components/schemas/DriveCollection" := by
  obtain ⟨cache', hrun, hcov, _⟩ := addUriEntries_spec
    { insertable := (lookupKey dkvs "insertable").getD (.bool false)
      updatable := (lookupKey dkvs "updatable").getD (.bool false)
      deletable := (lookupKey dkvs "deletable").getD (.bool false)
      action := false, actionResponse := none, typeName := some "DriveCollection"
      reference := "http://redfish.dmtf.org/schemas/swordfish/v1" ++ "/" ++
        "DriveCollection" ++ ".yaml#/components/schemas/" ++ "DriveCollection"
      requestBody := replaceOnce mref ".json#/definitions/" ".yaml#/components/schemas/" }
    uris cache hstr
  refine ⟨cache', ?_, ?_⟩
  · unfold processUriDef
    simp only [pyContains, huris, if_pos, hanyof, hcoll, hmref, hlist]
    simpa using hrun
  · intro s hs
    exact ⟨_, hcov s hs, rfl⟩

/-- A concrete DriveCollection definition for the C9 witness. -/
def driveCollKvs : KVs :=
  [("uris", .arr [.str "/redfish/v1/Drives"]),
   ("insertable", .bool false), ("updatable", .bool false),
   ("deletable", .bool false),
   ("anyOf", .arr [
      .obj [("$ref", .str "http://redfish.dmtf.org/schemas/v1/odata-v4.json#/definitions/idRef")],
      .obj [("properties", .obj [("Members", .obj [("items", .obj [("$ref",
        .str "http://redfish.dmtf.org/schemas/swordfish/v1/Drive.json#/definitions/Drive")])])])]])]

theorem c9_witness :
    ∃ cache', processUriDef "DriveCollection" (.obj driveCollKvs) [] = some cache' ∧
      ∀ s : String, JValue.str s ∈ [JValue.str "/redfish/v1/Drives"] →
        ∃ e, alookup cache' s = some e ∧
          e.reference =
            "http://redfish.dmtf.org/schemas/swordfish/v1/DriveCollection.yaml#/components/schemas/DriveCollection" :=
  c9_drivecollection_reference driveCollKvs []
    "http://redfish.dmtf.org/schemas/swordfish/v1/Drive.json#/definitions/Drive"
    [JValue.str "/redfish/v1/Drives"]
    (by decide) (by decide) (by decide) (by decide) (by decide)
    (by
      intro u hu
      simp only [List.mem_singleton] at hu
      exact ⟨_, hu⟩)

/-! ## Python string sorting (list.sort at line 321) -/

/-- Python string comparison: code-point lexicographic, non-strict. -/
def charListLe : List Char → List Char → Bool
  | [], _ => true
  | _ :: _, [] => false
  | c :: cs, d :: ds => if c = d then charListLe cs ds else decide (c < d)

def pyStrLe (a b : String) : Bool := charListLe a.data b.data

/-- Python list.sort on a list of strings, as insertion sort into
ascending order (list.sort is a comparison sort, and the sorted keys are
unique dictionary keys, so any ascending sort yields the same list). -/
def insertSorted (x : String) : List String → List String
  | [] => [x]
  | y :: rest => if pyStrLe x y then x :: y :: rest else y :: insertSorted x rest

def pySort : List String → List String
  | [] => []
  | x :: rest => insertSorted x (pySort rest)

def sortedAsc (l : List String) : Prop :=
  List.Pairwise (fun a b => pyStrLe a b = true) l

theorem charListLe_total : ∀ a b : List Char,
    charListLe a b = true ∨ charListLe b a = true
  | [], _ => Or.inl rfl
  | _ :: _, [] => Or.inr rfl
  | c :: cs, d :: ds => by
      by_cases hcd : c = d
      · subst hcd
        rcases charListLe_total cs ds with h | h
        · exact Or.inl (by simp [charListLe, h])
        · exact Or.inr (by simp [charListLe, h])
      · rcases lt_or_gt_of_ne hcd with h | h
        · exact Or.inl (by simp [charListLe, hcd, h])
        · exact Or.inr (by
            simp [charListLe, Ne.symm hcd, h])

theorem charListLe_trans : ∀ a b c : List Char,
    charListLe a b = true → charListLe b c = true → charListLe a c = true
  | [], _, _, _, _ => rfl
  | _ :: _, [], _, h, _ => by simp [charListLe] at h
  | _ :: _, _ :: _, [], _, h => by simp [charListLe] at h
  | x :: xs, y :: ys, z :: zs, h1, h2 => by
      by_cases hxy : x = y
      · subst hxy
        by_cases hyz : x = z
        · subst hyz
          simp only [charListLe, if_pos rfl] at h1 h2 ⊢
          exact charListLe_trans xs ys zs h1 h2
        · simp only [charListLe, if_pos rfl, if_neg hyz] at h2 ⊢
          exact h2
      · by_cases hyz : y = z
        · subst hyz
          simp only [charListLe, if_neg hxy] at h1 ⊢
          exact h1
        · simp only [charListLe, if_neg hxy, if_neg hyz, decide_eq_true_eq] at h1 h2
          have hxz : x < z := lt_trans h1 h2
          have hne : x ≠ z := ne_of_lt hxz
          simp [charListLe, hne, hxz]

theorem pyStrLe_total (a b : String) : pyStrLe a b = true ∨ pyStrLe b a = true :=
  charListLe_total a.data b.data

theorem pyStrLe_trans {a b c : String} (h1 : pyStrLe a b = true)
    (h2 : pyStrLe b c = true) : pyStrLe a c = true :=
  charListLe_trans a.data b.data c.data h1 h2

theorem insertSorted_perm (x : String) : ∀ l : List String,
    (insertSorted x l).Perm (x :: l)
  | [] => List.Perm.refl _
  | y :: rest => by
      unfold insertSorted
      by_cases h : pyStrLe x y = true
      · rw [if_pos h]
      · rw [if_neg h]
        exact List.Perm.trans (List.Perm.cons y (insertSorted_perm x rest))
          (List.Perm.swap x y rest)

theorem mem_insertSorted {x z : String} : ∀ {l : List String},
    z ∈ insertSorted x l → z = x ∨ z ∈ l := by
  intro l hz
  have := (insertSorted_perm x l).mem_iff.mp hz
  simpa using this

theorem insertSorted_sorted (x : String) : ∀ l : List String,
    sortedAsc l → sortedAsc (insertSorted x l)
  | [], _ => by simp [insertSorted, sortedAsc]
  | y :: rest, hs => by
      obtain ⟨hy, hrest⟩ := List.pairwise_cons.mp hs
      unfold insertSorted
      by_cases h : pyStrLe x y = true
      · rw [if_pos h]
        refine List.pairwise_cons.mpr ⟨?_, hs⟩
        intro z hz
        rcases List.mem_cons.mp hz with h1 | h1
        · rw [h1]; exact h
        · exact pyStrLe_trans h (hy z h1)
      · rw [if_neg h]
        have hyx : pyStrLe y x = true := by
          rcases pyStrLe_total x y with h1 | h1
          · exact absurd h1 h
          · exact h1
        refine List.pairwise_cons.mpr ⟨?_, insertSorted_sorted x rest hrest⟩
        intro z hz
        rcases mem_insertSorted hz with h1 | h1
        · rw [h1]; exact hyx
        · exact hy z h1

theorem pySort_perm : ∀ l : List String, (pySort l).Perm l
  | [] => List.Perm.refl _
  | x :: rest => by
      unfold pySort
      exact List.Perm.trans (insertSorted_perm x (pySort rest))
        (List.Perm.cons x (pySort_perm rest))

theorem pySort_sorted : ∀ l : List String, sortedAsc (pySort l)
  | [] => by simp [pySort, sortedAsc]
  | x :: rest => insertSorted_sorted x (pySort rest) (pySort_sorted rest)

/-! ## check_for_actions (lines 275-334) and claim C10 -/

def asStr : JValue → Option String
  | .str s => some s
  | _ => none

/-- Reads back the required list built so far; any other shape would make
the Python append or sort raise. -/
def extractStrs : List JValue → Option (List String)
  | [] => some []
  | .str s :: rest => (extractStrs rest).map (s :: ·)
  | _ :: _ => none

theorem extractStrs_map : ∀ l : List String, extractStrs (l.map .str) = some l
  | [] => rfl
  | s :: rest => by simp [extractStrs, extractStrs_map rest]

/-- The required-parameter loop of lines 316-321, acting on the synthesized
RequestBody definition: for every parameter whose object carries a
requiredParameter key (Python membership, which raises on scalars), the
parameter name is appended to the required list, which is then sorted in
place. -/
def requiredFold : List (String × JValue) → KVs → Option KVs
  | [], rb => some rb
  | (pname, pobj) :: rest, rb =>
      match pyContains pobj "requiredParameter" with
      | none => none
      | some false => requiredFold rest rb
      | some true =>
          match (match lookupKey rb "required" with
                 | none => some []
                 | some (.arr l) => extractStrs l
                 | some _ => none) with
          | none => none
          | some cs =>
              requiredFold rest
                (setKey rb "required" (.arr ((pySort (cs ++ [pname])).map .str)))

/-- Processing of one action property by check_for_actions
(lines 302-331): builds the synthesized RequestBody definition next to the
existing definitions and the action cache record.  none models an
exception inside the per-document try block (the partially written definition
of a failing action is not tracked, only that its processing aborts). -/
def processAction (defs : KVs) (actionLoc action : String) :
    Option (KVs × ActionEntry) :=
  match lookupKey defs actionLoc with
  | some (.obj lkvs) =>
      match lookupKey lkvs "properties" with
      | some (.obj props) =>
          match lookupKey props action with
          | some (.obj pa) =>
              match lookupKey pa "$ref" with
              | some (.str r) =>
                  let action_def := lastSlashComp r
                  match lookupKey defs action_def with
                  | some (.obj adkvs) =>
                      match lookupKey adkvs "description",
                          lookupKey adkvs "longDescription",
                          lookupKey adkvs "parameters" with
                      | some vd, some vl, some (.obj pkvs) =>
                          let rb0 : KVs :=
                            [("type", .str "object"),
                             ("additionalProperties", .bool false),
                             ("description", vd), ("longDescription", vl),
                             ("properties", .obj pkvs)]
                          match requiredFold pkvs rb0 with
                          | none => none
                          | some rb' =>
                              let defs' := setKey defs (action_def ++ "RequestBody")
                                (.obj rb')
                              match lookupKey adkvs "actionResponse" with
                              | none => some (defs',
                                  { reference := "#/components/schemas/" ++
                                      action_def ++ "RequestBody",
                                    actionResponse := none })
                              | some (.obj arkvs) =>
                                  match lookupKey arkvs "$ref" with
                                  | some (.str rr) => some (defs',
                                      { reference := "#/components/schemas/" ++
                                          action_def ++ "RequestBody",
                                        actionResponse := some
                                          ("#/components/schemas/" ++ lastSlashComp rr) })
                                  | _ => none
                              | some _ => none
                      | _, _, _ => none
                  | _ => none
              | _ => none
          | _ => none
      | _ => none
  | _ => none

/-- The action loop of lines 302-331: Oem is skipped; an exception inside
the loop is caught at line 333, keeping the state built so far and
abandoning the remaining actions. -/
def processActions (actionLoc : String) :
    List (String × JValue) → KVs → List (String × ActionEntry) →
      KVs × List (String × ActionEntry)
  | [], defs, acc => (defs, acc)
  | (action, _) :: rest, defs, acc =>
      if action == "Oem" then processActions actionLoc rest defs acc
      else
        match processAction defs actionLoc action with
        | none => (defs, acc)
        | some (defs', ae) =>
            processActions actionLoc rest defs' (aset acc action ae)

/-- check_for_actions (lines 275-334): locate the document's root resource
and its Actions container; absence of either returns the document
unchanged with no recorded actions (the empty cache slice). -/
def check_for_actions (doc : JValue) : JValue × List (String × ActionEntry) :=
  match doc with
  | .obj kvs =>
      match (match lookupKey kvs "$ref" with
             | some (.str r) => some (lastSlashComp r)
             | _ => none) with
      | none => (doc, [])
      | some resource_name =>
          match (match lookupKey kvs "definitions" with
                 | some (.obj defs) =>
                     match lookupKey defs resource_name with
                     | some (.obj rkvs) =>
                         match lookupKey rkvs "properties" with
                         | some (.obj rprops) =>
                             match lookupKey rprops "Actions" with
                             | some (.obj akvs) =>
                                 match lookupKey akvs "$ref" with
                                 | some (.str ar) => some (defs, lastSlashComp ar)
                                 | _ => none
                             | _ => none
                         | _ => none
                     | _ => none
                 | _ => none) with
          | none => (doc, [])
          | some (defs, actionLoc) =>
              match lookupKey defs actionLoc with
              | some (.obj lkvs) =>
                  match lookupKey lkvs "properties" with
                  | some (.obj props) =>
                      let res := processActions actionLoc props defs []
                      (.obj (setKey kvs "definitions" (.obj res.1)), res.2)
                  | _ => (doc, [])
              | _ => (doc, [])
  | _ => (doc, [])

/-- The parameter names carrying a requiredParameter key, in declaration
order. -/
def flaggedNames (params : List (String × JValue)) : List String :=
  (params.filter (fun p => pyContains p.2 "requiredParameter" == some true)).map
    Prod.fst

/-- The state invariant of the required-parameter loop: no required list
while no parameter was flagged, otherwise a sorted permutation of the
flagged names so far. -/
def reqInv (rb : KVs) (done : List String) : Prop :=
  (done = [] ∧ lookupKey rb "required" = none) ∨
  (done ≠ [] ∧ ∃ l : List String,
    lookupKey rb "required" = some (.arr (l.map .str)) ∧
    l.Perm done ∧ sortedAsc l)

theorem requiredFold_spec :
    ∀ (params : List (String × JValue)) (rb : KVs) (done : List String),
      (∀ p ∈ params, (pyContains p.2 "requiredParameter").isSome = true) →
      reqInv rb done →
      ∃ rb', requiredFold params rb = some rb' ∧
        reqInv rb' (done ++ flaggedNames params)
  | [], rb, done, _, hinv => ⟨rb, rfl, by simpa [flaggedNames] using hinv⟩
  | (pname, pobj) :: rest, rb, done, hall, hinv => by
      have hsome : (pyContains pobj "requiredParameter").isSome = true :=
        hall (pname, pobj) (by simp)
      cases hp : pyContains pobj "requiredParameter" with
      | none => rw [hp] at hsome; simp at hsome
      | some b =>
          cases b with
          | false =>
              obtain ⟨rb', hrun, hinv'⟩ := requiredFold_spec rest rb done
                (fun p hp2 => hall p (by simp [hp2])) hinv
              refine ⟨rb', ?_, ?_⟩
              · simpa [requiredFold, hp] using hrun
              · have hf : flaggedNames ((pname, pobj) :: rest) = flaggedNames rest := by
                  simp [flaggedNames, hp]
                rw [hf]
                exact hinv'
          | true =>
              rcases hinv with ⟨hd, hr⟩ | ⟨hd, l, hr, hperm, hsort⟩
              · subst hd
                obtain ⟨rb', hrun, hinv'⟩ := requiredFold_spec rest
                  (setKey rb "required" (.arr ((pySort ([] ++ [pname])).map .str)))
                  ([] ++ [pname])
                  (fun p hp2 => hall p (by simp [hp2]))
                  (Or.inr ⟨by simp, pySort ([] ++ [pname]),
                    lookupKey_setKey_self _ _ _,
                    (pySort_perm _), pySort_sorted _⟩)
                refine ⟨rb', ?_, ?_⟩
                · simpa [requiredFold, hp, hr] using hrun
                · have hf : flaggedNames ((pname, pobj) :: rest) =
                      pname :: flaggedNames rest := by
                    simp [flaggedNames, hp]
                  rw [hf]
                  simpa using hinv'
              · obtain ⟨rb', hrun, hinv'⟩ := requiredFold_spec rest
                  (setKey rb "required" (.arr ((pySort (l ++ [pname])).map .str)))
                  (done ++ [pname])
                  (fun p hp2 => hall p (by simp [hp2]))
                  (Or.inr ⟨by simp, pySort (l ++ [pname]),
                    lookupKey_setKey_self _ _ _,
                    List.Perm.trans (pySort_perm _) (hperm.append_right [pname]),
                    pySort_sorted _⟩)
                refine ⟨rb', ?_, ?_⟩
                · simpa [requiredFold, hp, hr, extractStrs_map] using hrun
                · have hf : flaggedNames ((pname, pobj) :: rest) =
                      pname :: flaggedNames rest := by
                    simp [flaggedNames, hp]
                  rw [hf]
                  have hre : done ++ [pname] ++ flaggedNames rest =
                      done ++ (pname :: flaggedNames rest) := by simp
                  rw [← hre]
                  exact hinv'

/-- The shape condition on a declared distinct action response
(lines 328-331): absent, or an object carrying a string ref; anything
else raises inside the try. -/
def actionResponseOk (adkvs : KVs) : Bool :=
  match lookupKey adkvs "actionResponse" with
  | none => true
  | some (.obj arkvs) =>
      match lookupKey arkvs "$ref" with
      | some (.str _) => true
      | _ => false
  | some _ => false

/-- C10: for every action whose processing completes, the synthesized
RequestBody definition carries a required list exactly when some parameter
object carries a requiredParameter key, and then the list holds precisely
the flagged parameter names, sorted in ascending code-point order. -/
theorem c10_required_sorted (defs : KVs) (actionLoc action : String)
    (lkvs props pa adkvs pkvs : KVs) (r : String) (vd vl : JValue)
    (h1 : lookupKey defs actionLoc = some (.obj lkvs))
    (h2 : lookupKey lkvs "properties" = some (.obj props))
    (h3 : lookupKey props action = some (.obj pa))
    (h4 : lookupKey pa "$ref" = some (.str r))
    (h5 : lookupKey defs (lastSlashComp r) = some (.obj adkvs))
    (h6 : lookupKey adkvs "description" = some vd)
    (h7 : lookupKey adkvs "longDescription" = some vl)
    (h8 : lookupKey adkvs "parameters" = some (.obj pkvs))
    (h9 : ∀ p ∈ pkvs, (pyContains p.2 "requiredParameter").isSome = true)
    (h10 : actionResponseOk adkvs = true) :
    ∃ (rb' : KVs) (ae : ActionEntry),
      processAction defs actionLoc action =
        some (setKey defs (lastSlashComp r ++ "RequestBody") (.obj rb'), ae) ∧
      (flaggedNames pkvs = [] → lookupKey rb' "required" = none) ∧
      (flaggedNames pkvs ≠ [] → ∃ l : List String,
        lookupKey rb' "required" = some (.arr (l.map .str)) ∧
        l.Perm (flaggedNames pkvs) ∧ sortedAsc l) := by
  obtain ⟨rb', hrun, hinv'⟩ := requiredFold_spec pkvs
    [("type", .str "object"), ("additionalProperties", .bool false),
     ("description", vd), ("longDescription", vl), ("properties", .obj pkvs)]
    [] h9 (Or.inl ⟨rfl, rfl⟩)
  simp only [List.nil_append] at hinv'
  have hreq1 : flaggedNames pkvs = [] → lookupKey rb' "required" = none := by
    intro hf
    rcases hinv' with ⟨_, hn⟩ | ⟨hne, _⟩
    · exact hn
    · exact absurd hf hne
  have hreq2 : flaggedNames pkvs ≠ [] → ∃ l : List String,
      lookupKey rb' "required" = some (.arr (l.map .str)) ∧
      l.Perm (flaggedNames pkvs) ∧ sortedAsc l := by
    intro hf
    rcases hinv' with ⟨hd, _⟩ | ⟨_, l, hl, hperm, hsort⟩
    · exact absurd hd hf
    · exact ⟨l, hl, hperm, hsort⟩
  rcases hq : lookupKey adkvs "actionResponse" with _ | v
  · exact ⟨rb',
      ⟨"#/components/schemas/" ++ lastSlashComp r ++ "RequestBody", none⟩,
      by simp [processAction, h1, h2, h3, h4, h5, h6, h7, h8, hrun, hq],
      hreq1, hreq2⟩
  · cases v with
    | obj arkvs =>
        rcases hrr : lookupKey arkvs "$ref" with _ | w
        · simp [actionResponseOk, hq, hrr] at h10
        · cases w with
          | str rr =>
              exact ⟨rb',
                ⟨"#/components/schemas/" ++ lastSlashComp r ++ "RequestBody",
                 some ("#/components/schemas/" ++ lastSlashComp rr)⟩,
                by simp [processAction, h1, h2, h3, h4, h5, h6, h7, h8,
                  hrun, hq, hrr],
                hreq1, hreq2⟩
          | null => simp [actionResponseOk, hq, hrr] at h10
          | bool b => simp [actionResponseOk, hq, hrr] at h10
          | num n => simp [actionResponseOk, hq, hrr] at h10
          | arr l2 => simp [actionResponseOk, hq, hrr] at h10
          | obj k2 => simp [actionResponseOk, hq, hrr] at h10
    | null => simp [actionResponseOk, hq] at h10
    | bool b => simp [actionResponseOk, hq] at h10
    | num n => simp [actionResponseOk, hq] at h10
    | str s => simp [actionResponseOk, hq] at h10
    | arr l2 => simp [actionResponseOk, hq] at h10

/-- The parameters block of the witness action: two parameter objects both
carrying the requiredParameter key, declared out of order. -/
def pkvsW : KVs :=
  [("Beta", .obj [("type", .str "string"), ("requiredParameter", .bool true)]),
   ("Alpha", .obj [("type", .str "string"), ("requiredParameter", .bool true)])]

/-- A concrete definitions block holding one action and its definition. -/
def defsW : KVs :=
  [("FooActions", .obj [("properties", .obj
      [("#Foo.Reset", .obj [("$ref", .str "#/definitions/Reset")])])]),
   ("Reset", .obj
      [("description", .str "d"), ("longDescription", .str "ld"),
       ("parameters", .obj pkvsW)])]

theorem c10_witness :
    ∃ (rb' : KVs) (ae : ActionEntry),
      processAction defsW "FooActions" "#Foo.Reset" =
        some (setKey defsW (lastSlashComp "#/definitions/Reset" ++ "RequestBody")
          (.obj rb'), ae) ∧
      (flaggedNames pkvsW = [] → lookupKey rb' "required" = none) ∧
      (flaggedNames pkvsW ≠ [] → ∃ l : List String,
        lookupKey rb' "required" = some (.arr (l.map .str)) ∧
        l.Perm (flaggedNames pkvsW) ∧ sortedAsc l) :=
  c10_required_sorted defsW "FooActions" "#Foo.Reset"
    [("properties", .obj
      [("#Foo.Reset", .obj [("$ref", .str "#/definitions/Reset")])])]
    [("#Foo.Reset", .obj [("$ref", .str "#/definitions/Reset")])]
    [("$ref", .str "#/definitions/Reset")]
    [("description", .str "d"), ("longDescription", .str "ld"),
     ("parameters", .obj pkvsW)]
    pkvsW "#/definitions/Reset" (.str "d") (.str "ld")
    (by decide) (by decide) (by decide) (by decide) (by decide)
    (by decide) (by decide) (by decide) (by decide) (by decide)
